import Mathlib

/-!
Verification of the quantitative signal engine and strategy backtester of the
stock_analysis_system repository.  The repository ships only the frontend API
clients (TypeScript type declarations such as `BacktestRequest`, `TradeRecord`,
`EquityPoint`, `TradingSignal`) and two algorithm reference documents; the
backend implementation of the simulator, the indicator library, the composite
signal engine and the risk estimator is not part of the source tree.  Those
components are therefore modelled here from the specification, faithful to its
words, and the claims are settled against that model.

Prices, cash and rates are modelled as rationals (the backend uses binary
floating point; the algebraic structure of the computations is identical).
-/

/-- Modelled from the spec: one OHLCV record (spec §3 PriceBar); the field
`openP` stands for the source's `open` field, which is a reserved word here. -/
structure PriceBar where
  date : ℕ
  openP : ℚ
  high : ℚ
  low : ℚ
  close : ℚ
  volume : ℚ
deriving Repr, DecidableEq

/-- Modelled from the spec: the per-bar trade action of a Strategy Rule Set,
`TradeAction ∈ {Enter, Exit, None}` (spec §3 StrategyParams). -/
inductive TradeAction where
  | enter : TradeAction
  | exitTrade : TradeAction
  | hold : TradeAction
deriving Repr, DecidableEq

/-- Modelled from the spec: the simulator-internal open position,
`{shares, entry_price, entry_date}` (spec §3 Position). -/
structure Position where
  shares : ℕ
  entry_price : ℚ
  entry_date : ℕ
deriving Repr, DecidableEq

/-- Modelled from the spec and the frontend `TradeRecord` interface
(buffettIndex.ts): created when a position closes, immutable thereafter. -/
structure TradeRecord where
  entry_date : ℕ
  entry_price : ℚ
  exit_date : ℕ
  exit_price : ℚ
  shares : ℕ
  pnl : ℚ
  pnl_pct : ℚ
  holding_days : ℕ
deriving Repr, DecidableEq

/-- Modelled from the spec and the frontend `EquityPoint` interface:
`{date, cash, position_value, equity, close}`, one per bar. -/
structure EquityPoint where
  date : ℕ
  cash : ℚ
  position_value : ℚ
  equity : ℚ
  close : ℚ
deriving Repr, DecidableEq

/-- Modelled from the spec: the running state of the backtest simulator.
`cash` and `pos` are the state machine of spec §4.3; `trades` is the
append-only ledger and `curve` the equity curve.  The counters `nEnters` and
`nExits` record the number of executed entry fills and exit fills, so that the
cycle-counting properties of §8 can be stated; they influence nothing else. -/
structure BtState where
  cash : ℚ
  pos : Option Position
  trades : List TradeRecord
  curve : List EquityPoint
  nEnters : ℕ
  nExits : ℕ
deriving Repr, DecidableEq

/-- Mark-to-market value of the open position at a given close price. -/
def posValue (pos : Option Position) (close : ℚ) : ℚ :=
  match pos with
  | Option.none => 0
  | Option.some p => (p.shares : ℚ) * close

/-- The number of shares an Enter fill would buy: `floor(cash / (close·(1+c+s)))`
(spec §4.3 step 2). -/
def enterShares (c s cash close : ℚ) : ℤ :=
  Rat.floor (cash / (close * (1 + c + s)))

/-- The TradeRecord appended when the position `p` is closed at `bar`
(spec §3 TradeRecord, §4.3 step 3): both legs fill at the bar close, the exit
leg net of commission and slippage. -/
def closeTrade (c s : ℚ) (p : Position) (bar : PriceBar) : TradeRecord :=
  let proceeds := (p.shares : ℚ) * bar.close * (1 - c - s)
  let cost := (p.shares : ℚ) * p.entry_price * (1 + c + s)
  { entry_date := p.entry_date, entry_price := p.entry_price,
    exit_date := bar.date, exit_price := bar.close, shares := p.shares,
    pnl := proceeds - cost,
    pnl_pct := if cost = 0 then 0 else (proceeds - cost) / cost,
    holding_days := bar.date - p.entry_date }

/-- Modelled from the spec: steps 1-3 of the per-bar algorithm (spec §4.3).
Enter while flat buys `enterShares` shares at the bar's close, debiting
`shares·close·(1+c+s)` (skipped as a no-op when the floor is ≤ 0); Exit while
long credits `shares·close·(1−c−s)` and appends a TradeRecord; every other
action/state combination leaves the state unchanged. -/
def btTrade (c s : ℚ) (st : BtState) (bar : PriceBar) (a : TradeAction) : BtState :=
  match a, st.pos with
  | TradeAction.enter, Option.none =>
      let shares : ℤ := enterShares c s st.cash bar.close
      if shares ≤ 0 then st
      else
        { st with
          cash := st.cash - (shares.toNat : ℚ) * bar.close * (1 + c + s),
          pos := Option.some ⟨shares.toNat, bar.close, bar.date⟩,
          nEnters := st.nEnters + 1 }
  | TradeAction.exitTrade, Option.some p =>
      { st with
        cash := st.cash + (p.shares : ℚ) * bar.close * (1 - c - s),
        pos := Option.none,
        trades := st.trades ++ [closeTrade c s p bar],
        nExits := st.nExits + 1 }
  | _, _ => st

/-- Modelled from the spec: step 4 of the per-bar algorithm (spec §4.3):
regardless of action, append one EquityPoint for this bar, marked to the
bar's close. -/
def pushEquity (st : BtState) (bar : PriceBar) : BtState :=
  { st with curve := st.curve ++
      ([{ date := bar.date, cash := st.cash,
          position_value := posValue st.pos bar.close,
          equity := st.cash + posValue st.pos bar.close,
          close := bar.close }] : List EquityPoint) }

/-- Modelled from the spec: one full iteration of the simulator loop
(spec §4.3): trade phase, then equity mark-to-market. -/
def btStep (c s : ℚ) (st : BtState) (bar : PriceBar) (a : TradeAction) : BtState :=
  pushEquity (btTrade c s st bar a) bar

/-- Modelled from the spec: the event-driven replay loop, processing bars in
order; `i` is the index of the next bar, `strat` maps a bar index to the
strategy's TradeAction for that bar. -/
def btRun (c s : ℚ) (strat : ℕ → TradeAction) : BtState → ℕ → List PriceBar → BtState
  | st, _, [] => st
  | st, i, b :: bs => btRun c s strat (btStep c s st b (strat i)) (i + 1) bs

/-- The initial simulator state: all capital in cash, flat, empty ledger. -/
def btInit (initialCapital : ℚ) : BtState :=
  ⟨initialCapital, Option.none, [], [], 0, 0⟩

/-- Modelled from the spec: `runBacktest(bars, strategy, initialCapital,
commissionRate, slippageRate)` (spec §6). -/
def runBacktest (bars : List PriceBar) (strat : ℕ → TradeAction)
    (initialCapital c s : ℚ) : BtState :=
  btRun c s strat (btInit initialCapital) 0 bars

/-- Modelled from the spec: final equity of a run is the equity of the last
EquityPoint (for an empty run it is the initial capital). -/
def finalEquity (initialCapital : ℚ) (st : BtState) : ℚ :=
  (st.curve.getLastD ⟨0, initialCapital, 0, initialCapital, 0⟩).equity

/-- Modelled from the spec: `total return = (final − initial)/initial`
(spec §4.6). -/
def totalReturn (initialCapital : ℚ) (st : BtState) : ℚ :=
  (finalEquity initialCapital st - initialCapital) / initialCapital

/-- Modelled from the spec: the square root used by the Bollinger band
computation.  The backend uses a floating-point square root; here it is
modelled by the integer square root of numerator and denominator, which is
exact whenever both are perfect squares — in particular at 0, the only value
at which the claims below evaluate it. -/
def ratSqrt (q : ℚ) : ℚ := (Nat.sqrt q.num.toNat : ℚ) / (Nat.sqrt q.den : ℚ)

/-- Maximum of a list of rationals (0 for an empty list). -/
def listMax : List ℚ → ℚ
  | [] => 0
  | x :: xs => xs.foldl max x

/-- Minimum of a list of rationals (0 for an empty list). -/
def listMin : List ℚ → ℚ
  | [] => 0
  | x :: xs => xs.foldl min x

/-- The close series of a bar sequence. -/
def closes (bars : List PriceBar) : List ℚ := bars.map (fun b => b.close)

/-- Modelled from the spec: `MA(n)` evaluated at the last index — the simple
mean of the trailing `n` values, undefined (`Option.none`) when fewer than
`n` values exist (spec §4.1). -/
def maLast (n : ℕ) (xs : List ℚ) : Option ℚ :=
  if xs.length < n then Option.none
  else Option.some ((xs.drop (xs.length - n)).sum / (n : ℚ))

/-- Consecutive one-bar changes of a series. -/
def diffs (xs : List ℚ) : List ℚ :=
  (xs.zip xs.tail).map (fun pr => pr.2 - pr.1)

/-- Modelled from the spec: Wilder-style rolling average over a series — the
seed is the simple mean of the first `n` values and each further value `x`
updates the average to `(avg·(n−1) + x)/n` (spec §4.1 RSI). -/
def wilder (n : ℕ) (xs : List ℚ) : ℚ :=
  (xs.drop n).foldl (fun avg x => (avg * ((n : ℚ) - 1) + x) / (n : ℚ))
    ((xs.take n).sum / (n : ℚ))

/-- Modelled from the spec: `RSI(n)` at the last bar.  Average gain and loss
use Wilder rolling averages; `RSI = 100 − 100/(1+RS)`; 100 when the average
loss is 0 but gains exist, and 50 by convention when there is no price
movement at all (spec §4.1 and §8). -/
def rsiLast (n : ℕ) (bars : List PriceBar) : Option ℚ :=
  let ds := diffs (closes bars)
  if ds.length < n then Option.none
  else
    let ag := wilder n (ds.map (fun d => max d 0))
    let al := wilder n (ds.map (fun d => max (-d) 0))
    Option.some (if al = 0 then (if ag = 0 then 50 else 100)
      else 100 - 100 / (1 + ag / al))

/-- Modelled from the spec: the true-range series — the first bar's TR is
`high − low` (no previous close); later bars use
`max(high−low, |high−prevClose|, |low−prevClose|)` (spec §4.1 ATR). -/
def trList (bars : List PriceBar) : List ℚ :=
  match bars with
  | [] => []
  | b :: _ =>
      (b.high - b.low) ::
        (bars.zip bars.tail).map (fun pr =>
          max (pr.2.high - pr.2.low)
            (max |pr.2.high - pr.1.close| |pr.2.low - pr.1.close|))

/-- Modelled from the spec: `ATR(n)` at the last bar — the simple mean of the
trailing `n` true ranges (spec §4.1). -/
def atrLast (n : ℕ) (bars : List PriceBar) : Option ℚ :=
  maLast n (trList bars)

/-- Modelled from the spec: the EMA series of a value series — seed is the
first available simple mean of `n` values, smoothing factor `2/(n+1)`; one
output per index from `n−1` on, empty when fewer than `n` values exist
(spec §4.1). -/
def emaSeries (n : ℕ) (xs : List ℚ) : List ℚ :=
  if xs.length < n ∨ n = 0 then []
  else
    List.scanl
      (fun a x => (2 / ((n : ℚ) + 1)) * x + (1 - 2 / ((n : ℚ) + 1)) * a)
      ((xs.take n).sum / (n : ℚ)) (xs.drop n)

/-- Modelled from the spec: `MACD(12,26,9)` at the last bar —
`DIF = EMA(close,12) − EMA(close,26)` over the common suffix,
`DEA = EMA(DIF,9)`, `Histogram = (DIF − DEA)·2`; undefined during warm-up
(spec §4.1). -/
def macdLast (bars : List PriceBar) : Option (ℚ × ℚ × ℚ) :=
  let xs := closes bars
  let e12 := emaSeries 12 xs
  let e26 := emaSeries 26 xs
  let m := min e12.length e26.length
  let dif := ((e12.drop (e12.length - m)).zip (e26.drop (e26.length - m))).map
    (fun pr => pr.1 - pr.2)
  let dea := emaSeries 9 dif
  match dif.getLast?, dea.getLast? with
  | Option.some df, Option.some de => Option.some (df, de, (df - de) * 2)
  | _, _ => Option.none

/-- Modelled from the spec: the RSV series of `KDJ(n)` —
`RSV = (close − lowN)/(highN − lowN) × 100`, 0 when the trailing window is
flat, one output per index from `n−1` on (spec §4.1). -/
def rsvSeries (n : ℕ) (bars : List PriceBar) : List ℚ :=
  (List.range bars.length).filterMap (fun i =>
    if i + 1 < n then Option.none
    else
      let window := (bars.take (i + 1)).drop (i + 1 - n)
      let hi := listMax (window.map (fun b => b.high))
      let lo := listMin (window.map (fun b => b.low))
      let c := (bars.getD i ⟨0, 0, 0, 0, 0, 0⟩).close
      Option.some (if hi = lo then 0 else (c - lo) / (hi - lo) * 100))

/-- Modelled from the spec: `KDJ(9,3,3)` at the last bar — `K = EMA(RSV,3)`,
`D = EMA(K,3)`, `J = 3K − 2D` (spec §4.1). -/
def kdjLast (bars : List PriceBar) : Option (ℚ × ℚ × ℚ) :=
  let rsv := rsvSeries 9 bars
  let k := emaSeries 3 rsv
  let d := emaSeries 3 k
  match k.getLast?, d.getLast? with
  | Option.some kv, Option.some dv => Option.some (kv, dv, 3 * kv - 2 * dv)
  | _, _ => Option.none

/-- Modelled from the spec: Bollinger bands `(middle, upper, lower)` at the
last bar — middle is `MA(n)`, the bands are `middle ± k ·` population
standard deviation of the trailing window (spec §4.1). -/
def bollLast (n : ℕ) (k : ℚ) (bars : List PriceBar) : Option (ℚ × ℚ × ℚ) :=
  (maLast n (closes bars)).map (fun mid =>
    let xs := closes bars
    let window := xs.drop (xs.length - n)
    let v := (window.map (fun x => (x - mid) ^ 2)).sum / (n : ℚ)
    (mid, mid + k * ratSqrt v, mid - k * ratSqrt v))

/-- Modelled from the spec: the technical SignalComponent's raw score — the
sum of the fixed rule deltas of spec §4.4 (RSI levels and turns, MACD
crosses and histogram expansion, KDJ extremes and crosses, Bollinger band
touches), each contributing independently.  Indicators still in warm-up
contribute nothing. -/
def technicalComponent (bars : List PriceBar) : ℚ :=
  let prev := bars.dropLast
  let rsiDelta :=
    match rsiLast 14 bars, rsiLast 14 prev with
    | Option.some r, Option.some rp =>
        (if r < 30 then (2/5 : ℚ) else 0) + (if r > 70 then (-(2/5) : ℚ) else 0)
        + (if r < 45 ∧ rp < r then (1/5 : ℚ) else 0)
        + (if r > 55 ∧ r < rp then (-(1/5) : ℚ) else 0)
    | Option.some r, Option.none =>
        (if r < 30 then (2/5 : ℚ) else 0) + (if r > 70 then (-(2/5) : ℚ) else 0)
    | _, _ => 0
  let macdDelta :=
    match macdLast bars, macdLast prev with
    | Option.some (df, de, hs), Option.some (dfp, dep, hsp) =>
        (if dfp ≤ dep ∧ de < df then (1/2 : ℚ) else 0)
        + (if dep ≤ dfp ∧ df < de then (-(1/2) : ℚ) else 0)
        + (if 0 < hs ∧ hsp < hs then (1/5 : ℚ) else 0)
        + (if hs < 0 ∧ hs < hsp then (-(1/5) : ℚ) else 0)
    | _, _ => 0
  let kdjDelta :=
    match kdjLast bars, kdjLast prev with
    | Option.some (kv, dv, jv), Option.some (kvp, dvp, _) =>
        (if jv < 0 then (3/10 : ℚ) else 0) + (if 100 < jv then (-(3/10) : ℚ) else 0)
        + (if kvp ≤ dvp ∧ dv < kv ∧ kv < 50 then (3/10 : ℚ) else 0)
        + (if dvp ≤ kvp ∧ kv < dv ∧ 50 < kv then (-(3/10) : ℚ) else 0)
    | _, _ => 0
  let bollDelta :=
    match bollLast 20 2 bars with
    | Option.some (_, up, lo) =>
        let c := (closes bars).getLastD 0
        (if c ≤ lo then (3/10 : ℚ) else 0) + (if up ≤ c then (-(3/10) : ℚ) else 0)
    | Option.none => 0
  rsiDelta + macdDelta + kdjDelta + bollDelta

/-- The flat 100-bar scenario of spec §8: every bar has
open = high = low = close = 10. -/
def flatBar : PriceBar := ⟨0, 10, 10, 10, 10, 0⟩

/-- 100 identical flat bars. -/
def flatBars : List PriceBar := List.replicate 100 flatBar

/-- Modelled from the spec: the raw (pre-clamp) per-dimension scores of the
composite signal engine (spec §3 SignalComponent, §4.4). -/
structure RawComponents where
  technical : ℚ
  trend : ℚ
  momentum : ℚ
  volatility : ℚ
  volume : ℚ
deriving Repr, DecidableEq

/-- Clamp a component score to [−1, 1] (spec §4.4). -/
def clampScore (x : ℚ) : ℚ := max (-1) (min 1 x)

/-- Modelled from the spec: the composite score
`Σ weightᵢ · clamp(componentᵢ, −1, 1)` with weights technical 0.30,
trend 0.25, momentum 0.20, volatility 0.15, volume 0.10 (spec §4.4). -/
def compositeScore (rc : RawComponents) : ℚ :=
  (3/10) * clampScore rc.technical + (1/4) * clampScore rc.trend
  + (1/5) * clampScore rc.momentum + (3/20) * clampScore rc.volatility
  + (1/10) * clampScore rc.volume

/-- Modelled from the spec: the risk-tolerance parameter of the trading
signal feature. -/
inductive RiskTolerance where
  | conservative : RiskTolerance
  | moderate : RiskTolerance
  | aggressive : RiskTolerance
deriving Repr, DecidableEq

/-- Modelled from the spec: the per-tolerance parameter table
{signal_threshold, stop_loss_ATR_multiple, take_profit_ATR_multiple,
min_confidence} (spec §4.4; ML API doc, 风险偏好参数). -/
structure RiskParams where
  signal_threshold : ℚ
  stop_loss_atr : ℚ
  take_profit_atr : ℚ
  min_confidence : ℚ
deriving Repr, DecidableEq

/-- The tolerance table: conservative 0.6/1.5/2.0/0.6, moderate
0.4/2.0/3.0/0.4, aggressive 0.2/2.5/4.0/0.2. -/
def riskParams : RiskTolerance → RiskParams
  | RiskTolerance.conservative => ⟨3/5, 3/2, 2, 3/5⟩
  | RiskTolerance.moderate => ⟨2/5, 2, 3, 2/5⟩
  | RiskTolerance.aggressive => ⟨1/5, 5/2, 4, 1/5⟩

/-- Modelled from the spec: the 5-level classification of a composite score
against the active signal threshold `τ`: strong buy at `≥ 2τ`, buy at `≥ τ`,
strong sell at `≤ −2τ`, sell at `≤ −τ`, hold otherwise (spec §4.4; for the
moderate table `τ = 0.4` this is the documented ±0.4/±0.8 scale). -/
def signalLevel (τ score : ℚ) : ℤ :=
  if 2 * τ ≤ score then 2
  else if τ ≤ score then 1
  else if score ≤ -(2 * τ) then -2
  else if score ≤ -τ then -1
  else 0

/-- Modelled from the spec and the frontend `TradingSignal` interface
(ml.ts): the trading-signal output; stop loss, take profit and risk/reward
carry values only for non-hold signals. -/
structure TradingSignal where
  signal : ℤ
  confidence : ℚ
  score : ℚ
  entry_price : ℚ
  stop_loss : Option ℚ
  take_profit : Option ℚ
  risk_reward_ratio : Option ℚ
  atr : ℚ
deriving Repr, DecidableEq

/-- Modelled from the spec: assemble the trading signal for a tolerance from
the composite score, the confidence, the last close and ATR(14).  Confidence
below the tolerance's `min_confidence` gates the signal to hold; a buy
signal places stop loss at `close − mult·ATR` and take profit at
`close + mult·ATR`, a sell signal mirrors them (spec §4.4). -/
def makeSignal (rt : RiskTolerance) (score conf lastClose atr : ℚ) : TradingSignal :=
  let p := riskParams rt
  let lvl := if conf < p.min_confidence then 0 else signalLevel p.signal_threshold score
  { signal := lvl,
    confidence := conf,
    score := score,
    entry_price := lastClose,
    stop_loss :=
      if 0 < lvl then Option.some (lastClose - p.stop_loss_atr * atr)
      else if lvl < 0 then Option.some (lastClose + p.stop_loss_atr * atr)
      else Option.none,
    take_profit :=
      if 0 < lvl then Option.some (lastClose + p.take_profit_atr * atr)
      else if lvl < 0 then Option.some (lastClose - p.take_profit_atr * atr)
      else Option.none,
    risk_reward_ratio :=
      if lvl = 0 then Option.none
      else Option.some (p.take_profit_atr / p.stop_loss_atr),
    atr := atr }

/-- Modelled from the spec: the confidence levels of the risk estimator. -/
inductive ConfLevel where
  | c68 : ConfLevel
  | c90 : ConfLevel
  | c95 : ConfLevel
  | c99 : ConfLevel
deriving Repr, DecidableEq

/-- The fixed Z table {68%: 1.00, 90%: 1.645, 95%: 1.96, 99%: 2.576}
(spec §4.5). -/
def zValue : ConfLevel → ℚ
  | ConfLevel.c68 => 1
  | ConfLevel.c90 => 329/200
  | ConfLevel.c95 => 49/25
  | ConfLevel.c99 => 322/125

/-- Modelled from the spec: the forward price interval at a confidence level,
`(price·(1 − Z·vol), price·(1 + Z·vol))` (spec §4.5). -/
def priceRange (price vol : ℚ) (lvl : ConfLevel) : ℚ × ℚ :=
  (price * (1 - zValue lvl * vol), price * (1 + zValue lvl * vol))

/-- Modelled from the spec: the error taxonomy of the prediction features —
`InsufficientData` carries the required minimum (spec §7). -/
inductive MlError where
  | insufficientData (required : ℕ) : MlError
deriving Repr, DecidableEq

/-- MA(5) vs MA(20) direction payload of the direction feature. -/
def directionSignal (bars : List PriceBar) : ℤ :=
  match maLast 5 (closes bars), maLast 20 (closes bars) with
  | Option.some a, Option.some b => if b < a then 1 else if a < b then -1 else 0
  | _, _ => 0

/-- Modelled from the spec: the direction feature — rejects with
`InsufficientData 60` below 60 bars (spec §6, ML API doc appendix B). -/
def predictDirection (bars : List PriceBar) : Except MlError ℤ :=
  if bars.length < 60 then Except.error (MlError.insufficientData 60)
  else Except.ok (directionSignal bars)

/-- Modelled from the spec: the trading-signal feature — rejects with
`InsufficientData 60` below 60 bars (spec §6, ML API doc appendix B). -/
def tradingSignalFeature (rt : RiskTolerance) (bars : List PriceBar) :
    Except MlError TradingSignal :=
  if bars.length < 60 then Except.error (MlError.insufficientData 60)
  else
    let score := clampScore (technicalComponent bars)
    Except.ok (makeSignal rt score (min 1 |score|) ((closes bars).getLastD 0)
      ((atrLast 14 bars).getD 0))

/-- Modelled from the spec: the comprehensive evaluation feature — rejects
with `InsufficientData 60` below 60 bars (spec §6, ML API doc appendix B). -/
def comprehensiveFeature (rt : RiskTolerance) (bars : List PriceBar) :
    Except MlError (ℤ × TradingSignal) :=
  if bars.length < 60 then Except.error (MlError.insufficientData 60)
  else
    Except.ok (directionSignal bars,
      makeSignal rt (clampScore (technicalComponent bars))
        (min 1 |clampScore (technicalComponent bars)|)
        ((closes bars).getLastD 0) ((atrLast 14 bars).getD 0))

/-- Modelled from the spec: the price-target feature — rejects with
`InsufficientData 120` below 120 bars; the payload is the support/resistance
pair from the window extremes (spec §6, ML API doc appendix B). -/
def priceTargetFeature (bars : List PriceBar) : Except MlError (ℚ × ℚ) :=
  if bars.length < 120 then Except.error (MlError.insufficientData 120)
  else Except.ok (listMin (bars.map (fun b => b.low)),
    listMax (bars.map (fun b => b.high)))

/-- Along a run at commission `c`, every Enter action issued while flat
computes a positive share count (no entry is skipped for insufficient
capital).  This is the fill-alignment condition of the amended commission
monotonicity claim. -/
def EntriesFill (c s : ℚ) (strat : ℕ → TradeAction) :
    BtState → ℕ → List PriceBar → Prop
  | _, _, [] => True
  | st, i, b :: bs =>
      (strat i = TradeAction.enter → st.pos = Option.none →
        0 < enterShares c s st.cash b.close)
      ∧ EntriesFill c s strat (btStep c s st b (strat i)) (i + 1) bs

/-- The simulation-state dominance invariant used for commission
monotonicity: the two runs are either both flat with the lower-commission
run holding at least as much cash, or both long at the same entry price with
the lower-commission run holding at least as many shares and at least as
much entry-valued wealth. -/
def BtDominates (c1 c2 s : ℚ) (st1 st2 : BtState) : Prop :=
  (st1.pos = Option.none ∧ st2.pos = Option.none
    ∧ 0 ≤ st2.cash ∧ st2.cash ≤ st1.cash)
  ∨ (∃ p1 p2, st1.pos = Option.some p1 ∧ st2.pos = Option.some p2
      ∧ p2.entry_price = p1.entry_price ∧ 0 < p1.entry_price
      ∧ 0 < p2.shares ∧ p2.shares ≤ p1.shares
      ∧ 0 ≤ st2.cash
      ∧ st2.cash + (p2.shares : ℚ) * p2.entry_price * (1 + c2 + s)
        ≤ st1.cash + (p1.shares : ℚ) * p1.entry_price * (1 + c1 + s))

/-- `Rat.floor` agrees with the floor of the `FloorRing` instance of `ℚ`. -/
theorem ratFloor_eq (q : ℚ) : Rat.floor q = ⌊q⌋ := rfl

/-- A `hold` action never changes the trading state. -/
theorem btTrade_hold (c s : ℚ) (st : BtState) (bar : PriceBar) :
    btTrade c s st bar TradeAction.hold = st := by
  rcases st with ⟨cash, pos, tr, cv, ne, nx⟩
  cases pos <;> rfl

/-- An Enter action while a position is open is ignored (no pyramiding). -/
theorem btTrade_enter_long (c s : ℚ) (st : BtState) (bar : PriceBar)
    (p : Position) (h : st.pos = Option.some p) :
    btTrade c s st bar TradeAction.enter = st := by
  rcases st with ⟨cash, pos, tr, cv, ne, nx⟩
  simp only at h
  subst h
  rfl

/-- An Exit action while flat is ignored. -/
theorem btTrade_exit_flat (c s : ℚ) (st : BtState) (bar : PriceBar)
    (h : st.pos = Option.none) :
    btTrade c s st bar TradeAction.exitTrade = st := by
  rcases st with ⟨cash, pos, tr, cv, ne, nx⟩
  simp only at h
  subst h
  rfl

/-- An Enter action while flat fills `enterShares` shares at the bar close
when that number is positive, and is a no-op otherwise. -/
theorem btTrade_enter_flat (c s : ℚ) (st : BtState) (bar : PriceBar)
    (h : st.pos = Option.none) :
    btTrade c s st bar TradeAction.enter =
      if enterShares c s st.cash bar.close ≤ 0 then st
      else
        { st with
          cash := st.cash -
            (((enterShares c s st.cash bar.close).toNat : ℚ)) * bar.close * (1 + c + s),
          pos := Option.some
            ⟨(enterShares c s st.cash bar.close).toNat, bar.close, bar.date⟩,
          nEnters := st.nEnters + 1 } := by
  rcases st with ⟨cash, pos, tr, cv, ne, nx⟩
  simp only at h
  subst h
  rfl

/-- An Exit action while long credits the exit leg net of commission and
slippage, closes the position and appends one TradeRecord. -/
theorem btTrade_exit_long (c s : ℚ) (st : BtState) (bar : PriceBar)
    (p : Position) (h : st.pos = Option.some p) :
    btTrade c s st bar TradeAction.exitTrade =
      { st with
        cash := st.cash + (p.shares : ℚ) * bar.close * (1 - c - s),
        pos := Option.none,
        trades := st.trades ++ [closeTrade c s p bar],
        nExits := st.nExits + 1 } := by
  rcases st with ⟨cash, pos, tr, cv, ne, nx⟩
  simp only at h
  subst h
  rfl

/-- The trade phase never touches the equity curve. -/
theorem btTrade_curve (c s : ℚ) (st : BtState) (bar : PriceBar) (a : TradeAction) :
    (btTrade c s st bar a).curve = st.curve := by
  cases a
  case hold => rw [btTrade_hold]
  case enter =>
    cases h : st.pos
    case none =>
      rw [btTrade_enter_flat c s st bar h]
      split <;> rfl
    case some p => rw [btTrade_enter_long c s st bar p h]
  case exitTrade =>
    cases h : st.pos
    case none => rw [btTrade_exit_flat c s st bar h]
    case some p => rw [btTrade_exit_long c s st bar p h]

/-- The mark-to-market phase does not change cash. -/
@[simp] theorem pushEquity_cash (st : BtState) (bar : PriceBar) :
    (pushEquity st bar).cash = st.cash := rfl

/-- The mark-to-market phase does not change the position. -/
@[simp] theorem pushEquity_pos (st : BtState) (bar : PriceBar) :
    (pushEquity st bar).pos = st.pos := rfl

/-- The mark-to-market phase does not change the trade ledger. -/
@[simp] theorem pushEquity_trades (st : BtState) (bar : PriceBar) :
    (pushEquity st bar).trades = st.trades := rfl

/-- The mark-to-market phase does not change the entry-fill counter. -/
@[simp] theorem pushEquity_nEnters (st : BtState) (bar : PriceBar) :
    (pushEquity st bar).nEnters = st.nEnters := rfl

/-- The mark-to-market phase does not change the exit-fill counter. -/
@[simp] theorem pushEquity_nExits (st : BtState) (bar : PriceBar) :
    (pushEquity st bar).nExits = st.nExits := rfl

/-- A full iteration's cash is the post-trade cash. -/
@[simp] theorem btStep_cash (c s : ℚ) (st : BtState) (bar : PriceBar) (a : TradeAction) :
    (btStep c s st bar a).cash = (btTrade c s st bar a).cash := rfl

/-- A full iteration's position is the post-trade position. -/
@[simp] theorem btStep_pos (c s : ℚ) (st : BtState) (bar : PriceBar) (a : TradeAction) :
    (btStep c s st bar a).pos = (btTrade c s st bar a).pos := rfl

/-- A full iteration's ledger is the post-trade ledger. -/
@[simp] theorem btStep_trades (c s : ℚ) (st : BtState) (bar : PriceBar) (a : TradeAction) :
    (btStep c s st bar a).trades = (btTrade c s st bar a).trades := rfl

/-- A full iteration's entry-fill counter is the post-trade counter. -/
@[simp] theorem btStep_nEnters (c s : ℚ) (st : BtState) (bar : PriceBar) (a : TradeAction) :
    (btStep c s st bar a).nEnters = (btTrade c s st bar a).nEnters := rfl

/-- A full iteration's exit-fill counter is the post-trade counter. -/
@[simp] theorem btStep_nExits (c s : ℚ) (st : BtState) (bar : PriceBar) (a : TradeAction) :
    (btStep c s st bar a).nExits = (btTrade c s st bar a).nExits := rfl

/-- Each simulator iteration appends exactly one EquityPoint, whose fields are
computed from the post-trade state and the bar's close. -/
theorem btStep_curve (c s : ℚ) (st : BtState) (bar : PriceBar) (a : TradeAction) :
    (btStep c s st bar a).curve = st.curve ++
      [{ date := bar.date, cash := (btTrade c s st bar a).cash,
         position_value := posValue (btTrade c s st bar a).pos bar.close,
         equity := (btTrade c s st bar a).cash +
           posValue (btTrade c s st bar a).pos bar.close,
         close := bar.close }] := by
  rw [btStep]
  show (btTrade c s st bar a).curve ++ _ = _
  rw [btTrade_curve]

/-- The simulator loop appends exactly one EquityPoint per input bar. -/
theorem btRun_curve_length (c s : ℚ) (strat : ℕ → TradeAction) :
    ∀ (bars : List PriceBar) (st : BtState) (i : ℕ),
      (btRun c s strat st i bars).curve.length = st.curve.length + bars.length := by
  intro bars
  induction bars with
  | nil => intro st i; simp [btRun]
  | cons b bs ih =>
      intro st i
      rw [btRun, ih, btStep_curve]
      simp
      omega

/-- Every EquityPoint emitted by the simulator loop satisfies
`equity = cash + position_value`. -/
theorem btRun_curve_balanced (c s : ℚ) (strat : ℕ → TradeAction) :
    ∀ (bars : List PriceBar) (st : BtState) (i : ℕ),
      (∀ ep ∈ st.curve, ep.equity = ep.cash + ep.position_value) →
      ∀ ep ∈ (btRun c s strat st i bars).curve,
        ep.equity = ep.cash + ep.position_value := by
  intro bars
  induction bars with
  | nil => intro st i h; exact h
  | cons b bs ih =>
      intro st i h
      rw [btRun]
      refine ih _ _ ?_
      rw [btStep_curve]
      intro ep hep
      rcases List.mem_append.1 hep with h1 | h1
      · exact h ep h1
      · rcases List.mem_singleton.1 h1 with rfl
        rfl

/-- After a nonempty run, the last EquityPoint records the final cash and the
final position marked at the last bar's close. -/
theorem btRun_last (c s : ℚ) (strat : ℕ → TradeAction) :
    ∀ (bars : List PriceBar) (st : BtState) (i : ℕ) (h : bars ≠ []) (d : EquityPoint),
      (btRun c s strat st i bars).curve.getLastD d =
        { date := (bars.getLast h).date,
          cash := (btRun c s strat st i bars).cash,
          position_value :=
            posValue (btRun c s strat st i bars).pos (bars.getLast h).close,
          equity := (btRun c s strat st i bars).cash +
            posValue (btRun c s strat st i bars).pos (bars.getLast h).close,
          close := (bars.getLast h).close } := by
  intro bars
  induction bars with
  | nil => intro st i h; exact absurd rfl h
  | cons b bs ih =>
      intro st i h d
      cases bs with
      | nil =>
          rw [btRun, btRun, btStep_curve]
          simp [List.getLastD_concat]
      | cons b2 bs2 =>
          rw [btRun, List.getLast_cons (by simp : (b2 :: bs2) ≠ [])]
          rw [btRun] at *
          exact ih (btStep c s st b (strat i)) (i + 1) (by simp) d

/-- The trade phase changes the ledger and the exit-fill counter in lockstep:
one TradeRecord is appended exactly when one exit fill is counted. -/
theorem btTrade_ledger_balance (c s : ℚ) (st : BtState) (bar : PriceBar) (a : TradeAction) :
    (btTrade c s st bar a).trades.length + st.nExits
      = st.trades.length + (btTrade c s st bar a).nExits := by
  cases a
  case hold => rw [btTrade_hold]
  case enter =>
    cases h : st.pos
    case none =>
      rw [btTrade_enter_flat c s st bar h]
      split
      · rfl
      · rfl
    case some p => rw [btTrade_enter_long c s st bar p h]
  case exitTrade =>
    cases h : st.pos
    case none => rw [btTrade_exit_flat c s st bar h]
    case some p =>
      rw [btTrade_exit_long c s st bar p h]
      simp
      omega

/-- The trade phase preserves the cycle invariant: the number of entry fills
equals the number of exit fills plus one when (and only when) a position is
open. -/
theorem btTrade_cycle_balance (c s : ℚ) (st : BtState) (bar : PriceBar) (a : TradeAction)
    (h : st.nEnters = st.nExits + (if st.pos.isSome then 1 else 0)) :
    (btTrade c s st bar a).nEnters = (btTrade c s st bar a).nExits
      + (if (btTrade c s st bar a).pos.isSome then 1 else 0) := by
  cases a
  case hold => rw [btTrade_hold]; exact h
  case enter =>
    cases hp : st.pos
    case none =>
      rw [hp] at h
      rw [btTrade_enter_flat c s st bar hp]
      split
      · rw [hp]; exact h
      · simp at h ⊢
        omega
    case some p => rw [btTrade_enter_long c s st bar p hp]; exact h
  case exitTrade =>
    cases hp : st.pos
    case none => rw [btTrade_exit_flat c s st bar hp]; exact h
    case some p =>
      rw [hp] at h
      rw [btTrade_exit_long c s st bar p hp]
      simp at h ⊢
      omega

/-- Along the simulator loop the ledger length stays equal to the exit-fill
count and the cycle invariant is preserved. -/
theorem btRun_ledger (c s : ℚ) (strat : ℕ → TradeAction) :
    ∀ (bars : List PriceBar) (st : BtState) (i : ℕ),
      st.trades.length = st.nExits →
      st.nEnters = st.nExits + (if st.pos.isSome then 1 else 0) →
      (btRun c s strat st i bars).trades.length = (btRun c s strat st i bars).nExits
      ∧ (btRun c s strat st i bars).nEnters = (btRun c s strat st i bars).nExits
          + (if (btRun c s strat st i bars).pos.isSome then 1 else 0) := by
  intro bars
  induction bars with
  | nil => intro st i h1 h2; exact ⟨h1, h2⟩
  | cons b bs ih =>
      intro st i h1 h2
      rw [btRun]
      refine ih _ _ ?_ ?_
      · have hb := btTrade_ledger_balance c s st b (strat i)
        simp only [btStep_trades, btStep_nExits]
        omega
      · simp only [btStep_nEnters, btStep_nExits, btStep_pos]
        exact btTrade_cycle_balance c s st b (strat i) h2

/-- Concrete evaluation: with no commission or slippage, 100 in cash buys 10
shares at close 10. -/
theorem enterShares_eval_1 : enterShares 0 0 100 10 = 10 := by
  unfold enterShares
  rw [ratFloor_eq, Int.floor_eq_iff]
  norm_num

/-- Concrete evaluation: at 1% commission, 100 in cash buys 9 shares at close
10 (100 / 10.1 = 9.90…, floored). -/
theorem enterShares_eval_2 : enterShares (1/100) 0 100 10 = 9 := by
  unfold enterShares
  rw [ratFloor_eq, Int.floor_eq_iff]
  norm_num

/-- C1: for every backtest run over a nonempty bar sequence — any strategy,
initial capital, commission rate and slippage rate — the simulator emits
exactly one EquityPoint per input bar regardless of trade activity, every
EquityPoint satisfies `equity = cash + position_value`, and the final cash
plus the final position value (marked at the last bar's close) equals the
last EquityPoint's equity. -/
theorem backtest_equity_curve_spec (bars : List PriceBar) (strat : ℕ → TradeAction)
    (W c s : ℚ) (h : bars ≠ []) :
    (runBacktest bars strat W c s).curve.length = bars.length
    ∧ (∀ ep ∈ (runBacktest bars strat W c s).curve,
        ep.equity = ep.cash + ep.position_value)
    ∧ finalEquity W (runBacktest bars strat W c s)
        = (runBacktest bars strat W c s).cash
          + posValue (runBacktest bars strat W c s).pos (bars.getLast h).close := by
  refine ⟨?_, ?_, ?_⟩
  · rw [runBacktest, btRun_curve_length]
    simp [btInit]
  · refine btRun_curve_balanced c s strat bars (btInit W) 0 ?_
    intro ep hep
    simp [btInit] at hep
  · rw [finalEquity, runBacktest, btRun_last c s strat bars (btInit W) 0 h]

/-- Witness for C1 at a concrete one-bar run with a hold strategy. -/
theorem backtest_equity_curve_spec_witness :
    (([⟨0, 10, 10, 10, 10, 0⟩] : List PriceBar) ≠ [])
    ∧ ((runBacktest [⟨0, 10, 10, 10, 10, 0⟩] (fun _ => TradeAction.hold) 100 0 0).curve.length = 1
      ∧ (∀ ep ∈ (runBacktest [⟨0, 10, 10, 10, 10, 0⟩] (fun _ => TradeAction.hold) 100 0 0).curve,
          ep.equity = ep.cash + ep.position_value)
      ∧ finalEquity 100 (runBacktest [⟨0, 10, 10, 10, 10, 0⟩] (fun _ => TradeAction.hold) 100 0 0)
          = (runBacktest [⟨0, 10, 10, 10, 10, 0⟩] (fun _ => TradeAction.hold) 100 0 0).cash
            + posValue (runBacktest [⟨0, 10, 10, 10, 10, 0⟩] (fun _ => TradeAction.hold) 100 0 0).pos
              (([⟨0, 10, 10, 10, 10, 0⟩] : List PriceBar).getLast (by simp)).close) :=
  ⟨by simp, backtest_equity_curve_spec [⟨0, 10, 10, 10, 10, 0⟩]
    (fun _ => TradeAction.hold) 100 0 0 (by simp)⟩

/-- C2: at most one position can be open (the simulator state holds an
`Option Position`, so this is structural); an Enter action while a position
is open is a no-op leaving cash and the position unchanged; an Exit action
while flat is a no-op; and for every run the number of TradeRecords equals
the number of completed Enter→Exit cycles (the exit-fill count), with never
more exit fills than entry fills. -/
theorem backtest_no_pyramiding_cycles :
    (∀ (c s : ℚ) (st : BtState) (bar : PriceBar) (p : Position),
      st.pos = Option.some p →
      (btStep c s st bar TradeAction.enter).cash = st.cash
      ∧ (btStep c s st bar TradeAction.enter).pos = st.pos)
    ∧ (∀ (c s : ℚ) (st : BtState) (bar : PriceBar),
      st.pos = Option.none →
      (btStep c s st bar TradeAction.exitTrade).cash = st.cash
      ∧ (btStep c s st bar TradeAction.exitTrade).pos = st.pos
      ∧ (btStep c s st bar TradeAction.exitTrade).trades = st.trades)
    ∧ (∀ (bars : List PriceBar) (strat : ℕ → TradeAction) (W c s : ℚ),
      (runBacktest bars strat W c s).trades.length = (runBacktest bars strat W c s).nExits
      ∧ (runBacktest bars strat W c s).nExits ≤ (runBacktest bars strat W c s).nEnters) := by
  refine ⟨?_, ?_, ?_⟩
  · intro c s st bar p h
    rw [btStep_cash, btStep_pos, btTrade_enter_long c s st bar p h]
    exact ⟨rfl, rfl⟩
  · intro c s st bar h
    rw [btStep_cash, btStep_pos, btStep_trades, btTrade_exit_flat c s st bar h]
    exact ⟨rfl, rfl, rfl⟩
  · intro bars strat W c s
    have h := btRun_ledger c s strat bars (btInit W) 0 rfl rfl
    refine ⟨h.1, ?_⟩
    have h2 : (runBacktest bars strat W c s).nEnters
        = (runBacktest bars strat W c s).nExits
          + (if (runBacktest bars strat W c s).pos.isSome then 1 else 0) := h.2
    rw [h2]
    split <;> omega

/-- Witness for C2 at a concrete long state, a concrete flat state and a
concrete one-bar run. -/
theorem backtest_no_pyramiding_cycles_witness :
    ((⟨50, Option.some ⟨3, 10, 0⟩, [], [], 1, 0⟩ : BtState).pos = Option.some ⟨3, 10, 0⟩
      ∧ (btStep 0 0 ⟨50, Option.some ⟨3, 10, 0⟩, [], [], 1, 0⟩ ⟨1, 12, 12, 12, 12, 0⟩
          TradeAction.enter).cash = 50)
    ∧ ((⟨100, Option.none, [], [], 0, 0⟩ : BtState).pos = Option.none
      ∧ (btStep 0 0 ⟨100, Option.none, [], [], 0, 0⟩ ⟨1, 12, 12, 12, 12, 0⟩
          TradeAction.exitTrade).trades = [])
    ∧ (runBacktest [⟨0, 10, 10, 10, 10, 0⟩] (fun _ => TradeAction.hold) 100 0 0).nExits
        ≤ (runBacktest [⟨0, 10, 10, 10, 10, 0⟩] (fun _ => TradeAction.hold) 100 0 0).nEnters :=
  ⟨⟨rfl, (backtest_no_pyramiding_cycles.1 0 0 ⟨50, Option.some ⟨3, 10, 0⟩, [], [], 1, 0⟩
      ⟨1, 12, 12, 12, 12, 0⟩ ⟨3, 10, 0⟩ rfl).1⟩,
    ⟨rfl, (backtest_no_pyramiding_cycles.2.1 0 0 ⟨100, Option.none, [], [], 0, 0⟩
      ⟨1, 12, 12, 12, 12, 0⟩ rfl).2.2⟩,
    (backtest_no_pyramiding_cycles.2.2 [⟨0, 10, 10, 10, 10, 0⟩]
      (fun _ => TradeAction.hold) 100 0 0).2⟩

/-- C3: fill semantics.  On Enter while flat the share count is
`floor(cash / (close·(1+commission+slippage)))`; when that floor is ≤ 0 the
entry is a no-op, otherwise cash is debited by `shares·close·(1+c+s)` and the
position opens at the bar's close.  On Exit while long cash is credited by
`shares·close·(1−c−s)` and the recorded trade's legs both fill at bar closes
(the exit leg at the current bar's close). -/
theorem backtest_fill_semantics (c s : ℚ) (st : BtState) (bar : PriceBar) :
    (enterShares c s st.cash bar.close
        = Rat.floor (st.cash / (bar.close * (1 + c + s))))
    ∧ (st.pos = Option.none →
      (enterShares c s st.cash bar.close ≤ 0 →
        btStep c s st bar TradeAction.enter = pushEquity st bar)
      ∧ (0 < enterShares c s st.cash bar.close →
        (btStep c s st bar TradeAction.enter).cash
          = st.cash - ((enterShares c s st.cash bar.close).toNat : ℚ)
              * bar.close * (1 + c + s)
        ∧ (btStep c s st bar TradeAction.enter).pos
          = Option.some ⟨(enterShares c s st.cash bar.close).toNat, bar.close, bar.date⟩))
    ∧ (∀ p : Position, st.pos = Option.some p →
      (btStep c s st bar TradeAction.exitTrade).cash
        = st.cash + (p.shares : ℚ) * bar.close * (1 - c - s)
      ∧ (btStep c s st bar TradeAction.exitTrade).trades
        = st.trades ++ [closeTrade c s p bar]
      ∧ (closeTrade c s p bar).exit_price = bar.close
      ∧ (closeTrade c s p bar).entry_price = p.entry_price) := by
  refine ⟨rfl, ?_, ?_⟩
  · intro h
    constructor
    · intro hle
      rw [btStep, btTrade_enter_flat c s st bar h, if_pos hle]
    · intro hpos
      rw [btStep_cash, btStep_pos, btTrade_enter_flat c s st bar h,
        if_neg (by omega)]
      exact ⟨rfl, rfl⟩
  · intro p h
    rw [btStep_cash, btStep_trades, btTrade_exit_long c s st bar p h]
    exact ⟨rfl, rfl, rfl, rfl⟩

/-- Witness for C3: a concrete entry fill (10 shares at close 10 from 100
cash, zero costs) and a concrete exit fill. -/
theorem backtest_fill_semantics_witness :
    ((⟨100, Option.none, [], [], 0, 0⟩ : BtState).pos = Option.none
      ∧ (0 : ℤ) < enterShares 0 0 100 10
      ∧ (btStep 0 0 ⟨100, Option.none, [], [], 0, 0⟩ ⟨0, 10, 10, 10, 10, 0⟩
          TradeAction.enter).cash = 0
      ∧ (btStep 0 0 ⟨100, Option.none, [], [], 0, 0⟩ ⟨0, 10, 10, 10, 10, 0⟩
          TradeAction.enter).pos = Option.some ⟨10, 10, 0⟩)
    ∧ ((⟨0, Option.some ⟨10, 10, 0⟩, [], [], 1, 0⟩ : BtState).pos = Option.some ⟨10, 10, 0⟩
      ∧ (btStep 0 0 ⟨0, Option.some ⟨10, 10, 0⟩, [], [], 1, 0⟩ ⟨1, 12, 12, 12, 12, 0⟩
          TradeAction.exitTrade).cash = 0 + (10 : ℚ) * 12 * (1 - 0 - 0)) := by
  have hpos : (0 : ℤ) < enterShares 0 0 100 10 := by
    rw [enterShares_eval_1]
    norm_num
  have h1 := (backtest_fill_semantics 0 0 ⟨100, Option.none, [], [], 0, 0⟩
    ⟨0, 10, 10, 10, 10, 0⟩).2.1 rfl
  have h2 := h1.2 hpos
  have h3 := (backtest_fill_semantics 0 0 ⟨0, Option.some ⟨10, 10, 0⟩, [], [], 1, 0⟩
    ⟨1, 12, 12, 12, 12, 0⟩).2.2 ⟨10, 10, 0⟩ rfl
  refine ⟨⟨rfl, hpos, ?_, ?_⟩, rfl, h3.1⟩
  · rw [h2.1]
    have ht : Int.toNat 10 = 10 := rfl
    norm_num [enterShares_eval_1, ht]
  · rw [h2.2]
    have ht : Int.toNat 10 = 10 := rfl
    norm_num [enterShares_eval_1, ht]

/-- C4: the composite score is the weighted sum of the clamped component
scores with weights technical 0.30, trend 0.25, momentum 0.20,
volatility 0.15, volume 0.10, which sum to 1; consequently every clamped
SignalComponent score and the composite score itself lie in [−1, 1], for all
raw component inputs. -/
theorem composite_score_weights_bounds (rc : RawComponents) :
    compositeScore rc
      = (3/10) * clampScore rc.technical + (1/4) * clampScore rc.trend
        + (1/5) * clampScore rc.momentum + (3/20) * clampScore rc.volatility
        + (1/10) * clampScore rc.volume
    ∧ ((3 : ℚ)/10 + 1/4 + 1/5 + 3/20 + 1/10 = 1)
    ∧ (∀ x : ℚ, -1 ≤ clampScore x ∧ clampScore x ≤ 1)
    ∧ -1 ≤ compositeScore rc ∧ compositeScore rc ≤ 1 := by
  have hb : ∀ x : ℚ, -1 ≤ clampScore x ∧ clampScore x ≤ 1 := by
    intro x
    unfold clampScore
    constructor
    · exact le_max_left _ _
    · exact max_le (by norm_num) (min_le_left _ _)
  refine ⟨rfl, by norm_num, hb, ?_, ?_⟩
  · have h1 := hb rc.technical
    have h2 := hb rc.trend
    have h3 := hb rc.momentum
    have h4 := hb rc.volatility
    have h5 := hb rc.volume
    unfold compositeScore
    nlinarith [h1.1, h2.1, h3.1, h4.1, h5.1]
  · have h1 := hb rc.technical
    have h2 := hb rc.trend
    have h3 := hb rc.momentum
    have h4 := hb rc.volatility
    have h5 := hb rc.volume
    unfold compositeScore
    nlinarith [h1.2, h2.2, h3.2, h4.2, h5.2]

/-- C7: the risk estimator's Z table is {68%: 1.00, 90%: 1.645, 95%: 1.96,
99%: 2.576}; for positive price and non-negative forward volatility the
interval brackets the price at every level, and a level with a larger Z
strictly widens both ends whenever the volatility is positive. -/
theorem risk_interval_spec (price vol : ℚ) (hp : 0 < price) (hv : 0 ≤ vol) :
    (zValue ConfLevel.c68 = 1 ∧ zValue ConfLevel.c90 = 329/200
      ∧ zValue ConfLevel.c95 = 49/25 ∧ zValue ConfLevel.c99 = 322/125)
    ∧ (∀ lvl : ConfLevel,
        (priceRange price vol lvl).1 ≤ price ∧ price ≤ (priceRange price vol lvl).2)
    ∧ (∀ l1 l2 : ConfLevel, zValue l1 < zValue l2 → 0 < vol →
        (priceRange price vol l2).1 < (priceRange price vol l1).1
        ∧ (priceRange price vol l1).2 < (priceRange price vol l2).2) := by
  refine ⟨⟨rfl, rfl, rfl, rfl⟩, ?_, ?_⟩
  · intro lvl
    have hz : 0 ≤ zValue lvl := by cases lvl <;> norm_num [zValue]
    have hzz : 0 ≤ price * (zValue lvl * vol) :=
      mul_nonneg hp.le (mul_nonneg hz hv)
    unfold priceRange
    constructor
    · simp only
      nlinarith [hzz]
    · simp only
      nlinarith [hzz]
  · intro l1 l2 hz hvpos
    have hzz : 0 < price * vol * (zValue l2 - zValue l1) :=
      mul_pos (mul_pos hp hvpos) (sub_pos.2 hz)
    unfold priceRange
    constructor
    · simp only
      nlinarith [hzz]
    · simp only
      nlinarith [hzz]

/-- Witness for C7 at price 10, forward volatility 1/100, levels 68% and
95%. -/
theorem risk_interval_spec_witness :
    (0 : ℚ) < 10 ∧ (0 : ℚ) ≤ 1/100
    ∧ ((zValue ConfLevel.c68 = 1 ∧ zValue ConfLevel.c90 = 329/200
        ∧ zValue ConfLevel.c95 = 49/25 ∧ zValue ConfLevel.c99 = 322/125)
      ∧ (∀ lvl : ConfLevel,
          (priceRange 10 (1/100) lvl).1 ≤ 10 ∧ (10 : ℚ) ≤ (priceRange 10 (1/100) lvl).2)
      ∧ (∀ l1 l2 : ConfLevel, zValue l1 < zValue l2 → (0 : ℚ) < 1/100 →
          (priceRange 10 (1/100) l2).1 < (priceRange 10 (1/100) l1).1
          ∧ (priceRange 10 (1/100) l1).2 < (priceRange 10 (1/100) l2).2)) :=
  ⟨by norm_num, by norm_num,
    risk_interval_spec 10 (1/100) (by norm_num) (by norm_num)⟩

/-- C5 counterexample: under the conservative tolerance a composite score of
−0.5 — below the claimed universal sell cutoff −0.4, with confidence 1 well
above the tolerance's gate — classifies as hold (0), not sell: the 5-level
cutoffs scale with the tolerance's own signal_threshold (0.6 for
conservative), so the stated ±0.4/±0.8 boundaries hold only for the moderate
tolerance. -/
theorem trading_signal_thresholds_counterexample :
    ((-1/2 : ℚ) ≤ -(2/5))
    ∧ (riskParams RiskTolerance.conservative).min_confidence ≤ 1
    ∧ (makeSignal RiskTolerance.conservative (-1/2) 1 10 1).signal = 0 := by
  refine ⟨by norm_num, by norm_num [riskParams], ?_⟩
  norm_num [makeSignal, riskParams, signalLevel]

/-- C5 (amended): the trading-signal label is assigned on the 5-level scale
relative to the active tolerance's own signal_threshold τ — strong sell at
score ≤ −2τ, sell at score ≤ −τ, hold in between, buy at score ≥ τ, strong
buy at score ≥ 2τ — which for the moderate tolerance (τ = 0.4) instantiates
to the stated ±0.4/±0.8 boundaries; the active threshold set and
minimum-confidence gate come from the tolerance's table (conservative
0.6/1.5/2.0/0.6, moderate 0.4/2.0/3.0/0.4, aggressive 0.2/2.5/4.0/0.2), and
every non-hold signal's stop-loss and take-profit prices equal the last
close minus/plus the tolerance's multiple × ATR(14), mirrored for sell
signals. -/
theorem trading_signal_thresholds_amended :
    (riskParams RiskTolerance.conservative = ⟨3/5, 3/2, 2, 3/5⟩
      ∧ riskParams RiskTolerance.moderate = ⟨2/5, 2, 3, 2/5⟩
      ∧ riskParams RiskTolerance.aggressive = ⟨1/5, 5/2, 4, 1/5⟩)
    ∧ (∀ (rt : RiskTolerance) (score conf close atr : ℚ),
        (riskParams rt).min_confidence ≤ conf →
        (makeSignal rt score conf close atr).signal
          = signalLevel (riskParams rt).signal_threshold score)
    ∧ (∀ score : ℚ,
        (signalLevel (2/5) score = 2 ↔ 4/5 ≤ score)
        ∧ (signalLevel (2/5) score = 1 ↔ 2/5 ≤ score ∧ score < 4/5)
        ∧ (signalLevel (2/5) score = -2 ↔ score ≤ -(4/5))
        ∧ (signalLevel (2/5) score = -1 ↔ score ≤ -(2/5) ∧ -(4/5) < score)
        ∧ (signalLevel (2/5) score = 0 ↔ -(2/5) < score ∧ score < 2/5))
    ∧ (∀ (rt : RiskTolerance) (score conf close atr : ℚ),
        (0 < (makeSignal rt score conf close atr).signal →
          (makeSignal rt score conf close atr).stop_loss
            = Option.some (close - (riskParams rt).stop_loss_atr * atr)
          ∧ (makeSignal rt score conf close atr).take_profit
            = Option.some (close + (riskParams rt).take_profit_atr * atr))
        ∧ ((makeSignal rt score conf close atr).signal < 0 →
          (makeSignal rt score conf close atr).stop_loss
            = Option.some (close + (riskParams rt).stop_loss_atr * atr)
          ∧ (makeSignal rt score conf close atr).take_profit
            = Option.some (close - (riskParams rt).take_profit_atr * atr))) := by
  refine ⟨⟨rfl, rfl, rfl⟩, ?_, ?_, ?_⟩
  · intro rt score conf close atr h
    show (if conf < (riskParams rt).min_confidence then 0
      else signalLevel (riskParams rt).signal_threshold score) = _
    rw [if_neg (not_lt.2 h)]
  · intro score
    unfold signalLevel
    split_ifs <;>
      refine ⟨?_, ?_, ?_, ?_, ?_⟩ <;>
      norm_num <;>
      first
        | linarith
        | (constructor <;> linarith)
        | (intro; linarith)
  · intro rt score conf close atr
    constructor
    · intro h
      have hsl : (makeSignal rt score conf close atr).stop_loss
          = if 0 < (makeSignal rt score conf close atr).signal then
              Option.some (close - (riskParams rt).stop_loss_atr * atr)
            else if (makeSignal rt score conf close atr).signal < 0 then
              Option.some (close + (riskParams rt).stop_loss_atr * atr)
            else Option.none := rfl
      have htp : (makeSignal rt score conf close atr).take_profit
          = if 0 < (makeSignal rt score conf close atr).signal then
              Option.some (close + (riskParams rt).take_profit_atr * atr)
            else if (makeSignal rt score conf close atr).signal < 0 then
              Option.some (close - (riskParams rt).take_profit_atr * atr)
            else Option.none := rfl
      rw [hsl, htp, if_pos h, if_pos h]
      exact ⟨rfl, rfl⟩
    · intro h
      have hsl : (makeSignal rt score conf close atr).stop_loss
          = if 0 < (makeSignal rt score conf close atr).signal then
              Option.some (close - (riskParams rt).stop_loss_atr * atr)
            else if (makeSignal rt score conf close atr).signal < 0 then
              Option.some (close + (riskParams rt).stop_loss_atr * atr)
            else Option.none := rfl
      have htp : (makeSignal rt score conf close atr).take_profit
          = if 0 < (makeSignal rt score conf close atr).signal then
              Option.some (close + (riskParams rt).take_profit_atr * atr)
            else if (makeSignal rt score conf close atr).signal < 0 then
              Option.some (close - (riskParams rt).take_profit_atr * atr)
            else Option.none := rfl
      have h0 : ¬(0 < (makeSignal rt score conf close atr).signal) := by omega
      rw [hsl, htp, if_neg h0, if_neg h0, if_pos h, if_pos h]
      exact ⟨rfl, rfl⟩

/-- Witness for C5 (amended) at the moderate tolerance, score 0.5,
confidence 1, close 10, ATR 2: a buy signal with stop loss 6 and take profit
16. -/
theorem trading_signal_thresholds_amended_witness :
    ((riskParams RiskTolerance.moderate).min_confidence ≤ 1
      ∧ (makeSignal RiskTolerance.moderate (1/2) 1 10 2).signal
          = signalLevel (riskParams RiskTolerance.moderate).signal_threshold (1/2))
    ∧ ((0 : ℤ) < (makeSignal RiskTolerance.moderate (1/2) 1 10 2).signal
      ∧ (makeSignal RiskTolerance.moderate (1/2) 1 10 2).stop_loss
          = Option.some (10 - (riskParams RiskTolerance.moderate).stop_loss_atr * 2)
      ∧ (makeSignal RiskTolerance.moderate (1/2) 1 10 2).take_profit
          = Option.some (10 + (riskParams RiskTolerance.moderate).take_profit_atr * 2)) := by
  have hconf : (riskParams RiskTolerance.moderate).min_confidence ≤ (1 : ℚ) := by
    norm_num [riskParams]
  have hsig : (0 : ℤ) < (makeSignal RiskTolerance.moderate (1/2) 1 10 2).signal := by
    norm_num [makeSignal, riskParams, signalLevel]
  have h4 := (trading_signal_thresholds_amended.2.2.2 RiskTolerance.moderate
    (1/2) 1 10 2).1 hsig
  exact ⟨⟨hconf, trading_signal_thresholds_amended.2.1 RiskTolerance.moderate
    (1/2) 1 10 2 hconf⟩, hsig, h4.1, h4.2⟩

/-- C10: a trading-signal evaluation whose label is hold (signal value 0)
returns null stop_loss, take_profit and risk_reward_ratio; any non-hold
(buy or sell) signal carries numeric values in all three fields. -/
theorem hold_signal_null_fields (rt : RiskTolerance) (score conf close atr : ℚ) :
    ((makeSignal rt score conf close atr).signal = 0 →
      (makeSignal rt score conf close atr).stop_loss = Option.none
      ∧ (makeSignal rt score conf close atr).take_profit = Option.none
      ∧ (makeSignal rt score conf close atr).risk_reward_ratio = Option.none)
    ∧ ((makeSignal rt score conf close atr).signal ≠ 0 →
      ((makeSignal rt score conf close atr).stop_loss).isSome = true
      ∧ ((makeSignal rt score conf close atr).take_profit).isSome = true
      ∧ ((makeSignal rt score conf close atr).risk_reward_ratio).isSome = true) := by
  have hsl : (makeSignal rt score conf close atr).stop_loss
      = if 0 < (makeSignal rt score conf close atr).signal then
          Option.some (close - (riskParams rt).stop_loss_atr * atr)
        else if (makeSignal rt score conf close atr).signal < 0 then
          Option.some (close + (riskParams rt).stop_loss_atr * atr)
        else Option.none := rfl
  have htp : (makeSignal rt score conf close atr).take_profit
      = if 0 < (makeSignal rt score conf close atr).signal then
          Option.some (close + (riskParams rt).take_profit_atr * atr)
        else if (makeSignal rt score conf close atr).signal < 0 then
          Option.some (close - (riskParams rt).take_profit_atr * atr)
        else Option.none := rfl
  have hrr : (makeSignal rt score conf close atr).risk_reward_ratio
      = if (makeSignal rt score conf close atr).signal = 0 then Option.none
        else Option.some ((riskParams rt).take_profit_atr / (riskParams rt).stop_loss_atr)
        := rfl
  constructor
  · intro h
    have h1 : ¬(0 < (makeSignal rt score conf close atr).signal) := by omega
    have h2 : ¬((makeSignal rt score conf close atr).signal < 0) := by omega
    rw [hsl, htp, hrr, if_neg h1, if_neg h1, if_neg h2, if_neg h2, if_pos h]
    exact ⟨rfl, rfl, rfl⟩
  · intro h
    rw [hsl, htp, hrr, if_neg h]
    rcases lt_or_gt_of_ne h with h1 | h1
    · have h2 : ¬(0 < (makeSignal rt score conf close atr).signal) := by omega
      rw [if_neg h2, if_neg h2, if_pos h1, if_pos h1]
      exact ⟨rfl, rfl, rfl⟩
    · rw [if_pos h1, if_pos h1]
      exact ⟨rfl, rfl, rfl⟩

/-- Witness for C10 at a concrete hold evaluation (moderate tolerance, score
0, which classifies as hold) and a concrete buy evaluation (score 0.9). -/
theorem hold_signal_null_fields_witness :
    ((makeSignal RiskTolerance.moderate 0 1 10 2).signal = 0
      ∧ (makeSignal RiskTolerance.moderate 0 1 10 2).stop_loss = Option.none
      ∧ (makeSignal RiskTolerance.moderate 0 1 10 2).take_profit = Option.none
      ∧ (makeSignal RiskTolerance.moderate 0 1 10 2).risk_reward_ratio = Option.none)
    ∧ ((makeSignal RiskTolerance.moderate (9/10) 1 10 2).signal ≠ 0
      ∧ ((makeSignal RiskTolerance.moderate (9/10) 1 10 2).stop_loss).isSome = true
      ∧ ((makeSignal RiskTolerance.moderate (9/10) 1 10 2).take_profit).isSome = true
      ∧ ((makeSignal RiskTolerance.moderate (9/10) 1 10 2).risk_reward_ratio).isSome
          = true) := by
  have h0 : (makeSignal RiskTolerance.moderate 0 1 10 2).signal = 0 := by
    norm_num [makeSignal, riskParams, signalLevel]
  have h9 : (makeSignal RiskTolerance.moderate (9/10) 1 10 2).signal ≠ 0 := by
    norm_num [makeSignal, riskParams, signalLevel]
  have ha := (hold_signal_null_fields RiskTolerance.moderate 0 1 10 2).1 h0
  have hb := (hold_signal_null_fields RiskTolerance.moderate (9/10) 1 10 2).2 h9
  exact ⟨⟨h0, ha⟩, h9, hb⟩

/-- C8: every prediction feature rejects a bar sequence shorter than its
minimum — 60 bars for direction, trading signal and comprehensive
evaluation, 120 bars for the price target — with an explicit
`InsufficientData` error stating that minimum, returning no result. -/
theorem insufficient_data_gate (bars : List PriceBar) (rt : RiskTolerance) :
    (bars.length < 60 →
      predictDirection bars = Except.error (MlError.insufficientData 60))
    ∧ (bars.length < 60 →
      tradingSignalFeature rt bars = Except.error (MlError.insufficientData 60))
    ∧ (bars.length < 60 →
      comprehensiveFeature rt bars = Except.error (MlError.insufficientData 60))
    ∧ (bars.length < 120 →
      priceTargetFeature bars = Except.error (MlError.insufficientData 120)) := by
  refine ⟨?_, ?_, ?_, ?_⟩
  · intro h
    unfold predictDirection
    rw [if_pos h]
  · intro h
    unfold tradingSignalFeature
    rw [if_pos h]
  · intro h
    unfold comprehensiveFeature
    rw [if_pos h]
  · intro h
    unfold priceTargetFeature
    rw [if_pos h]

/-- Witness for C8 at a concrete 10-bar sequence, below both minimums. -/
theorem insufficient_data_gate_witness :
    ((List.replicate 10 flatBar).length < 60
      ∧ predictDirection (List.replicate 10 flatBar)
          = Except.error (MlError.insufficientData 60)
      ∧ tradingSignalFeature RiskTolerance.moderate (List.replicate 10 flatBar)
          = Except.error (MlError.insufficientData 60)
      ∧ comprehensiveFeature RiskTolerance.moderate (List.replicate 10 flatBar)
          = Except.error (MlError.insufficientData 60))
    ∧ ((List.replicate 10 flatBar).length < 120
      ∧ priceTargetFeature (List.replicate 10 flatBar)
          = Except.error (MlError.insufficientData 120)) := by
  have h60 : (List.replicate 10 flatBar).length < 60 := by simp
  have h120 : (List.replicate 10 flatBar).length < 120 := by simp
  have h := insufficient_data_gate (List.replicate 10 flatBar) RiskTolerance.moderate
  exact ⟨⟨h60, h.1 h60, h.2.1 h60, h.2.2.1 h60⟩, h120, h.2.2.2 h120⟩

/-- Folding a function over copies of a fixed point of that function leaves
the accumulator unchanged. -/
theorem foldl_replicate_fixed {α β : Type} (f : β → α → β) (c : α) :
    ∀ (k : ℕ) (a : β), f a c = a → (List.replicate k c).foldl f a = a
  | 0, _, _ => rfl
  | k + 1, a, h => by
      rw [List.replicate_succ, List.foldl_cons, h]
      exact foldl_replicate_fixed f c k a h

/-- Scanning a function over copies of a fixed point produces copies of the
accumulator. -/
theorem scanl_replicate_fixed {α β : Type} (f : β → α → β) (c : α) :
    ∀ (k : ℕ) (a : β), f a c = a →
      List.scanl f a (List.replicate k c) = List.replicate (k + 1) a
  | 0, _, _ => rfl
  | k + 1, a, h => by
      rw [List.replicate_succ]
      show a :: List.scanl f (f a c) (List.replicate k c) = _
      rw [h, scanl_replicate_fixed f c k a h]
      rfl

/-- Zipping `k+1` copies with `k` copies yields `k` pairs. -/
theorem zip_replicate_offset {α β : Type} (a : α) (b : β) :
    ∀ k : ℕ, (List.replicate (k + 1) a).zip (List.replicate k b)
      = List.replicate k (a, b)
  | 0 => rfl
  | k + 1 => by
      rw [List.replicate_succ (n := k + 1), List.replicate_succ (n := k)]
      show (a, b) :: (List.replicate (k + 1) a).zip (List.replicate k b) = _
      rw [zip_replicate_offset a b k, List.replicate_succ]

/-- The last entry of a nonempty constant list. -/
theorem getLastQ_replicate {α : Type} (k : ℕ) (x : α) :
    (List.replicate (k + 1) x).getLast? = Option.some x := by
  rw [List.replicate_succ', List.getLast?_concat]

/-- `getLastD` of a nonempty constant list. -/
theorem getLastD_replicate {α : Type} (k : ℕ) (x d : α) :
    (List.replicate (k + 1) x).getLastD d = x := by
  rw [List.replicate_succ', List.getLastD_concat]

/-- Dropping the last entry of a nonempty constant list. -/
theorem dropLast_replicate_succ {α : Type} (k : ℕ) (x : α) :
    (List.replicate (k + 1) x).dropLast = List.replicate k x := by
  rw [List.replicate_succ']
  exact List.dropLast_concat

/-- The close series of constant bars. -/
theorem closes_replicate (k : ℕ) (b : PriceBar) :
    closes (List.replicate k b) = List.replicate k b.close := by
  simp [closes]

/-- The maximum of a nonempty constant list. -/
theorem listMax_replicate (j : ℕ) (x : ℚ) :
    listMax (List.replicate (j + 1) x) = x := by
  rw [List.replicate_succ]
  simp only [listMax]
  exact foldl_replicate_fixed max x j x (max_self x)

/-- The minimum of a nonempty constant list. -/
theorem listMin_replicate (j : ℕ) (x : ℚ) :
    listMin (List.replicate (j + 1) x) = x := by
  rw [List.replicate_succ]
  simp only [listMin]
  exact foldl_replicate_fixed min x j x (min_self x)

/-- MA over a constant window is that constant. -/
theorem maLast_replicate (n k : ℕ) (c : ℚ) (hn : n ≠ 0) (hk : n ≤ k) :
    maLast n (List.replicate k c) = Option.some c := by
  have hQ : (n : ℚ) ≠ 0 := Nat.cast_ne_zero.2 hn
  have hcond : ¬((List.replicate k c).length < n) := by
    simp only [List.length_replicate]
    omega
  unfold maLast
  rw [if_neg hcond, List.length_replicate, List.drop_replicate, List.sum_replicate,
    show k - (k - n) = n from by omega, nsmul_eq_mul, mul_div_cancel_left₀ c hQ]

/-- Consecutive differences of a constant series are zero. -/
theorem diffs_replicate (k : ℕ) (c : ℚ) :
    diffs (List.replicate k c) = List.replicate (k - 1) (0 : ℚ) := by
  cases k with
  | zero => rfl
  | succ j =>
      unfold diffs
      rw [show (List.replicate (j + 1) c).tail = List.replicate j c from rfl,
        zip_replicate_offset, List.map_replicate]
      simp

/-- The Wilder rolling average of an all-zero series is zero. -/
theorem wilder_replicate_zero (n j : ℕ) :
    wilder n (List.replicate j (0 : ℚ)) = 0 := by
  unfold wilder
  rw [List.take_replicate, List.drop_replicate, List.sum_replicate, smul_zero,
    zero_div]
  exact foldl_replicate_fixed _ 0 (j - n) 0 (by norm_num)

/-- RSI of a constant series is 50 by the no-movement convention. -/
theorem rsiLast_replicate (n k : ℕ) (b : PriceBar) (hk : n + 1 ≤ k) :
    rsiLast n (List.replicate k b) = Option.some 50 := by
  simp only [rsiLast]
  rw [closes_replicate, diffs_replicate]
  have hcond : ¬((List.replicate (k - 1) (0 : ℚ)).length < n) := by
    simp only [List.length_replicate]
    omega
  rw [if_neg hcond, List.map_replicate, List.map_replicate]
  have h1 : max (0 : ℚ) 0 = 0 := max_self 0
  have h2 : max (-(0 : ℚ)) 0 = 0 := by norm_num
  rw [h1, h2, wilder_replicate_zero]
  norm_num

/-- The EMA series of a constant series is constant. -/
theorem emaSeries_replicate (n k : ℕ) (c : ℚ) (hn : n ≠ 0) (hk : n ≤ k) :
    emaSeries n (List.replicate k c) = List.replicate (k - n + 1) c := by
  have hQ : (n : ℚ) ≠ 0 := Nat.cast_ne_zero.2 hn
  have hcond : ¬((List.replicate k c).length < n ∨ n = 0) := by
    simp only [List.length_replicate]
    omega
  simp only [emaSeries]
  rw [if_neg hcond, List.take_replicate, List.drop_replicate, List.sum_replicate,
    show min n k = n from by omega, nsmul_eq_mul, mul_div_cancel_left₀ c hQ]
  exact scanl_replicate_fixed _ c (k - n) c (by ring)

/-- MACD of a constant series is (0, 0, 0) once past warm-up. -/
theorem macdLast_replicate (k : ℕ) (b : PriceBar) (hk : 34 ≤ k) :
    macdLast (List.replicate k b) = Option.some (0, 0, 0) := by
  simp only [macdLast]
  rw [closes_replicate,
    emaSeries_replicate 12 k b.close (by norm_num) (by omega),
    emaSeries_replicate 26 k b.close (by norm_num) (by omega),
    List.length_replicate, List.length_replicate,
    show min (k - 12 + 1) (k - 26 + 1) = k - 26 + 1 from by omega,
    show k - 12 + 1 - (k - 26 + 1) = 14 from by omega,
    show k - 26 + 1 - (k - 26 + 1) = 0 from by omega,
    List.drop_replicate, List.drop_replicate,
    show k - 12 + 1 - 14 = k - 26 + 1 from by omega, Nat.sub_zero,
    List.zip_replicate', List.map_replicate, sub_self,
    emaSeries_replicate 9 (k - 26 + 1) 0 (by norm_num) (by omega),
    getLastQ_replicate, getLastQ_replicate]
  norm_num

/-- Counting the warm-up gate over an index range: indices with `i+1 < n`
are dropped, the rest each contribute one zero. -/
theorem filterMap_warmup_gate (n : ℕ) :
    ∀ m : ℕ, (List.range m).filterMap
        (fun i => if i + 1 < n then Option.none else Option.some (0 : ℚ))
      = List.replicate (m - (n - 1)) (0 : ℚ) := by
  intro m
  induction m with
  | zero =>
      rw [Nat.zero_sub]
      rfl
  | succ j ih =>
      rw [List.range_succ, List.filterMap_append, ih]
      by_cases h : j + 1 < n
      · have he : (List.filterMap
            (fun i => if i + 1 < n then Option.none else Option.some (0 : ℚ)) [j])
            = [] := by simp [h]
        rw [he, List.append_nil, show j + 1 - (n - 1) = j - (n - 1) from by omega]
      · have he : (List.filterMap
            (fun i => if i + 1 < n then Option.none else Option.some (0 : ℚ)) [j])
            = [0] := by simp [h]
        rw [he, show j + 1 - (n - 1) = (j - (n - 1)) + 1 from by omega,
          List.replicate_succ']

/-- The RSV series of a constant bar sequence whose bars have equal high and
low is all zeros past warm-up. -/
theorem rsv_replicate (n m : ℕ) (b : PriceBar) (hn : n ≠ 0) (hb : b.high = b.low) :
    rsvSeries n (List.replicate m b) = List.replicate (m - (n - 1)) (0 : ℚ) := by
  have step : rsvSeries n (List.replicate m b)
      = (List.range m).filterMap
          (fun i => if i + 1 < n then Option.none else Option.some (0 : ℚ)) := by
    simp only [rsvSeries, List.length_replicate]
    refine List.filterMap_congr ?_
    intro i hi
    rw [List.mem_range] at hi
    by_cases h : i + 1 < n
    · simp only [if_pos h]
    · simp only [if_neg h]
      have hw : (List.replicate m b).take (i + 1) = List.replicate (i + 1) b := by
        rw [List.take_replicate, show min (i + 1) m = i + 1 from by omega]
      rw [hw, List.drop_replicate, List.map_replicate, List.map_replicate,
        show i + 1 - (i + 1 - n) = (i + 1 - (i + 1 - n) - 1) + 1 from by omega,
        listMax_replicate, listMin_replicate, hb, if_pos rfl]
  rw [step, filterMap_warmup_gate]

/-- KDJ of a flat constant series is (0, 0, 0) once past warm-up. -/
theorem kdjLast_replicate (k : ℕ) (b : PriceBar) (hb : b.high = b.low)
    (hk : 13 ≤ k) :
    kdjLast (List.replicate k b) = Option.some (0, 0, 0) := by
  simp only [kdjLast]
  rw [rsv_replicate 9 k b (by norm_num) hb,
    emaSeries_replicate 3 (k - (9 - 1)) 0 (by norm_num) (by omega),
    emaSeries_replicate 3 (k - (9 - 1) - 3 + 1) 0 (by norm_num) (by omega),
    getLastQ_replicate, getLastQ_replicate]
  norm_num

/-- Bollinger bands of a constant series all equal that constant. -/
theorem bollLast_replicate (n k0 : ℕ) (kk : ℚ) (b : PriceBar) (hn : n ≠ 0)
    (hk : n ≤ k0) :
    bollLast n kk (List.replicate k0 b) = Option.some (b.close, b.close, b.close) := by
  have hs : ratSqrt 0 = 0 := by
    unfold ratSqrt
    norm_num
  simp only [bollLast]
  rw [closes_replicate, maLast_replicate n k0 b.close hn hk]
  norm_num [List.drop_replicate, List.map_replicate, List.sum_replicate, hs]

/-- The true-range series of constant bars with high = low = close is all
zeros. -/
theorem trList_replicate (j : ℕ) (b : PriceBar) (hb : b.high = b.low)
    (hc : b.close = b.high) :
    trList (List.replicate (j + 1) b) = List.replicate (j + 1) (0 : ℚ) := by
  rw [List.replicate_succ]
  simp only [trList]
  rw [show (b :: List.replicate j b).tail = List.replicate j b from rfl,
    ← List.replicate_succ, zip_replicate_offset, List.map_replicate]
  simp only [hb, hc, sub_self, abs_zero, max_self]
  rfl

/-- C9: on the flat 100-bar series at close 10.00, MA5 = MA20 = 10.00, the
Bollinger bands collapse to upper = lower = middle = 10.00, ATR = 0, RSI is
50 by the no-movement convention, and the composite score's technical
component is exactly 0. -/
theorem flat_series_scenario :
    maLast 5 (closes flatBars) = Option.some 10
    ∧ maLast 20 (closes flatBars) = Option.some 10
    ∧ bollLast 20 2 flatBars = Option.some (10, 10, 10)
    ∧ atrLast 14 flatBars = Option.some 0
    ∧ rsiLast 14 flatBars = Option.some 50
    ∧ technicalComponent flatBars = 0 := by
  have hfb : flatBars = List.replicate 100 flatBar := rfl
  have hclose : flatBar.close = 10 := rfl
  have hma : ∀ n : ℕ, n ≠ 0 → n ≤ 100 → maLast n (closes flatBars) = Option.some 10 := by
    intro n h1 h2
    rw [hfb, closes_replicate, hclose]
    exact maLast_replicate n 100 10 h1 h2
  have hboll : bollLast 20 2 flatBars = Option.some (10, 10, 10) := by
    rw [hfb, bollLast_replicate 20 100 2 flatBar (by norm_num) (by norm_num), hclose]
  have hatr : atrLast 14 flatBars = Option.some 0 := by
    rw [hfb]
    unfold atrLast
    rw [show List.replicate 100 flatBar = List.replicate (99 + 1) flatBar from rfl,
      trList_replicate 99 flatBar rfl rfl]
    exact maLast_replicate 14 (99 + 1) 0 (by norm_num) (by norm_num)
  have hrsi : rsiLast 14 flatBars = Option.some 50 := by
    rw [hfb]
    exact rsiLast_replicate 14 100 flatBar (by norm_num)
  have hprev : flatBars.dropLast = List.replicate 99 flatBar := by
    rw [hfb, show List.replicate 100 flatBar = List.replicate (99 + 1) flatBar from rfl]
    exact dropLast_replicate_succ 99 flatBar
  have hrsi99 : rsiLast 14 (List.replicate 99 flatBar) = Option.some 50 :=
    rsiLast_replicate 14 99 flatBar (by norm_num)
  have hmacd : macdLast flatBars = Option.some (0, 0, 0) := by
    rw [hfb]
    exact macdLast_replicate 100 flatBar (by norm_num)
  have hmacd99 : macdLast (List.replicate 99 flatBar) = Option.some (0, 0, 0) :=
    macdLast_replicate 99 flatBar (by norm_num)
  have hkdj : kdjLast flatBars = Option.some (0, 0, 0) := by
    rw [hfb]
    exact kdjLast_replicate 100 flatBar rfl (by norm_num)
  have hkdj99 : kdjLast (List.replicate 99 flatBar) = Option.some (0, 0, 0) :=
    kdjLast_replicate 99 flatBar rfl (by norm_num)
  have hgl : (closes flatBars).getLastD 0 = 10 := by
    rw [hfb, closes_replicate, hclose]
    exact getLastD_replicate 99 10 0
  have htech : technicalComponent flatBars = 0 := by
    simp only [technicalComponent]
    rw [hprev, hrsi, hrsi99, hmacd, hmacd99, hkdj, hkdj99, hboll, hgl]
    norm_num
  exact ⟨hma 5 (by norm_num) (by norm_num), hma 20 (by norm_num) (by norm_num),
    hboll, hatr, hrsi, htech⟩

/-- C6 counterexample: on the two-bar run (close 10 then close 1) with an
enter-then-exit strategy and initial capital 100, raising the commission
rate from 0 to 1% raises total_return (−0.8199 > −0.9): the higher
commission forces a smaller integer share fill (9 instead of 10), so more
of the capital stays in cash and escapes the price collapse.  Both runs
complete one trade. -/
theorem commission_monotonicity_counterexample :
    (0 : ℚ) ≤ 0 ∧ (0 : ℚ) < 1/100
    ∧ 1 ≤ (runBacktest [⟨0, 10, 10, 10, 10, 0⟩, ⟨1, 1, 1, 1, 1, 0⟩]
        (fun i => if i = 0 then TradeAction.enter else TradeAction.exitTrade)
        100 0 0).trades.length
    ∧ 1 ≤ (runBacktest [⟨0, 10, 10, 10, 10, 0⟩, ⟨1, 1, 1, 1, 1, 0⟩]
        (fun i => if i = 0 then TradeAction.enter else TradeAction.exitTrade)
        100 (1/100) 0).trades.length
    ∧ totalReturn 100 (runBacktest [⟨0, 10, 10, 10, 10, 0⟩, ⟨1, 1, 1, 1, 1, 0⟩]
        (fun i => if i = 0 then TradeAction.enter else TradeAction.exitTrade)
        100 0 0)
      < totalReturn 100 (runBacktest [⟨0, 10, 10, 10, 10, 0⟩, ⟨1, 1, 1, 1, 1, 0⟩]
        (fun i => if i = 0 then TradeAction.enter else TradeAction.exitTrade)
        100 (1/100) 0) := by
  have e1 := enterShares_eval_1
  have e2 := enterShares_eval_2
  have e2' : enterShares ((100 : ℚ))⁻¹ 0 100 10 = 9 := by
    rw [show ((100 : ℚ))⁻¹ = 1/100 from by norm_num]
    exact e2
  refine ⟨le_refl 0, by norm_num, ?_, ?_, ?_⟩
  · simp [runBacktest, btRun, btStep, btTrade, pushEquity, btInit, posValue,
      closeTrade, e1]
  · simp [runBacktest, btRun, btStep, btTrade, pushEquity, btInit, posValue,
      closeTrade, e2, e2']
  · simp [totalReturn, finalEquity, runBacktest, btRun, btStep, btTrade,
      pushEquity, btInit, posValue, closeTrade, e1, e2, e2']
    norm_num

/-- The trade phase only ever appends to the ledger. -/
theorem btTrade_trades_append (c s : ℚ) (st : BtState) (bar : PriceBar) (a : TradeAction) :
    ∃ l, (btTrade c s st bar a).trades = st.trades ++ l := by
  cases a
  case hold => exact ⟨[], by rw [btTrade_hold, List.append_nil]⟩
  case enter =>
    cases h : st.pos
    case none =>
      refine ⟨[], ?_⟩
      rw [btTrade_enter_flat c s st bar h, List.append_nil]
      split <;> rfl
    case some p =>
      exact ⟨[], by rw [btTrade_enter_long c s st bar p h, List.append_nil]⟩
  case exitTrade =>
    cases h : st.pos
    case none => exact ⟨[], by rw [btTrade_exit_flat c s st bar h, List.append_nil]⟩
    case some p => exact ⟨[closeTrade c s p bar], by rw [btTrade_exit_long c s st bar p h]⟩

/-- The simulator loop only ever appends to the ledger. -/
theorem btRun_trades_append (c s : ℚ) (strat : ℕ → TradeAction) :
    ∀ (bars : List PriceBar) (st : BtState) (i : ℕ),
      ∃ l, (btRun c s strat st i bars).trades = st.trades ++ l := by
  intro bars
  induction bars with
  | nil => intro st i; exact ⟨[], (List.append_nil _).symm⟩
  | cons b bs ih =>
      intro st i
      rw [btRun]
      obtain ⟨l1, h1⟩ := ih (btStep c s st b (strat i)) (i + 1)
      obtain ⟨l0, h0⟩ := btTrade_trades_append c s st b (strat i)
      refine ⟨l0 ++ l1, ?_⟩
      rw [h1, btStep_trades, h0, List.append_assoc]

/-- One simulator iteration preserves the dominance invariant, provided the
bar's close is positive, any Enter while the higher-commission run is flat
fills, and any Exit closes a trade with non-negative pnl at the higher
commission. -/
theorem btStep_dominates (c1 c2 s : ℚ) (st1 st2 : BtState) (b : PriceBar)
    (a : TradeAction)
    (hc1 : 0 ≤ c1) (hc12 : c1 ≤ c2) (hs : 0 ≤ s) (hc2s : c2 + s ≤ 1)
    (hb : 0 < b.close)
    (hfill : a = TradeAction.enter → st2.pos = Option.none →
      0 < enterShares c2 s st2.cash b.close)
    (hpnl : ∀ p2, st2.pos = Option.some p2 → a = TradeAction.exitTrade →
      0 ≤ (closeTrade c2 s p2 b).pnl)
    (hdom : BtDominates c1 c2 s st1 st2) :
    BtDominates c1 c2 s (btStep c1 s st1 b a) (btStep c2 s st2 b a) := by
  unfold BtDominates at hdom ⊢
  simp only [btStep_cash, btStep_pos]
  cases a
  case hold =>
    rw [btTrade_hold, btTrade_hold]
    exact hdom
  case enter =>
    rcases hdom with ⟨h1n, h2n, h2c0, hcc⟩ |
      ⟨p1, p2, h1p, h2p, hep, hep0, hsh0, hsh, h2c0, hV⟩
    · have hf2 : 0 < enterShares c2 s st2.cash b.close := hfill rfl h2n
      have hden1 : (0 : ℚ) < b.close * (1 + c1 + s) := by nlinarith
      have hden2 : (0 : ℚ) < b.close * (1 + c2 + s) := by nlinarith
      have hdenle : b.close * (1 + c1 + s) ≤ b.close * (1 + c2 + s) := by nlinarith
      have hdiv : st2.cash / (b.close * (1 + c2 + s))
          ≤ st1.cash / (b.close * (1 + c1 + s)) :=
        le_trans (div_le_div_of_nonneg_left h2c0 hden1 hdenle)
          ((div_le_div_iff_of_pos_right hden1).mpr hcc)
      have hfloor : enterShares c2 s st2.cash b.close
          ≤ enterShares c1 s st1.cash b.close := by
        unfold enterShares
        rw [ratFloor_eq, ratFloor_eq]
        exact Int.floor_le_floor hdiv
      have hf1 : 0 < enterShares c1 s st1.cash b.close := lt_of_lt_of_le hf2 hfloor
      have hcast2 : ((enterShares c2 s st2.cash b.close).toNat : ℚ)
            * (b.close * (1 + c2 + s)) ≤ st2.cash := by
        have h1 : ((enterShares c2 s st2.cash b.close : ℤ) : ℚ)
            ≤ st2.cash / (b.close * (1 + c2 + s)) := by
          unfold enterShares
          rw [ratFloor_eq]
          exact Int.floor_le _
        have h2 : ((enterShares c2 s st2.cash b.close).toNat : ℚ)
            = ((enterShares c2 s st2.cash b.close : ℤ) : ℚ) := by
          have h3 : ((enterShares c2 s st2.cash b.close).toNat : ℤ)
              = enterShares c2 s st2.cash b.close := Int.toNat_of_nonneg hf2.le
          exact_mod_cast h3
        rw [h2]
        rw [← le_div_iff₀ hden2]
        exact h1
      rw [btTrade_enter_flat c1 s st1 b h1n, btTrade_enter_flat c2 s st2 b h2n,
        if_neg (by omega), if_neg (by omega)]
      right
      refine ⟨⟨(enterShares c1 s st1.cash b.close).toNat, b.close, b.date⟩,
        ⟨(enterShares c2 s st2.cash b.close).toNat, b.close, b.date⟩,
        rfl, rfl, rfl, hb,
        (by show 0 < (enterShares c2 s st2.cash b.close).toNat; omega),
        (by show (enterShares c2 s st2.cash b.close).toNat
              ≤ (enterShares c1 s st1.cash b.close).toNat
            omega),
        ?_, ?_⟩
      · show 0 ≤ st2.cash - ((enterShares c2 s st2.cash b.close).toNat : ℚ)
          * b.close * (1 + c2 + s)
        nlinarith [hcast2]
      · show st2.cash - ((enterShares c2 s st2.cash b.close).toNat : ℚ)
            * b.close * (1 + c2 + s)
          + ((enterShares c2 s st2.cash b.close).toNat : ℚ) * b.close * (1 + c2 + s)
          ≤ st1.cash - ((enterShares c1 s st1.cash b.close).toNat : ℚ)
            * b.close * (1 + c1 + s)
          + ((enterShares c1 s st1.cash b.close).toNat : ℚ) * b.close * (1 + c1 + s)
        linarith [hcc]
    · rw [btTrade_enter_long c1 s st1 b p1 h1p, btTrade_enter_long c2 s st2 b p2 h2p]
      right
      exact ⟨p1, p2, h1p, h2p, hep, hep0, hsh0, hsh, h2c0, hV⟩
  case exitTrade =>
    rcases hdom with ⟨h1n, h2n, h2c0, hcc⟩ |
      ⟨p1, p2, h1p, h2p, hep, hep0, hsh0, hsh, h2c0, hV⟩
    · rw [btTrade_exit_flat c1 s st1 b h1n, btTrade_exit_flat c2 s st2 b h2n]
      exact Or.inl ⟨h1n, h2n, h2c0, hcc⟩
    · rw [btTrade_exit_long c1 s st1 b p1 h1p, btTrade_exit_long c2 s st2 b p2 h2p]
      left
      have hs2 : (0 : ℚ) < (p2.shares : ℚ) := by exact_mod_cast hsh0
      have hs12 : ((p2.shares : ℚ)) ≤ (p1.shares : ℚ) := by exact_mod_cast hsh
      have hpn : 0 ≤ (p2.shares : ℚ) * b.close * (1 - c2 - s)
          - (p2.shares : ℚ) * p2.entry_price * (1 + c2 + s) := hpnl p2 h2p rfl
      have hg2 : 0 ≤ b.close * (1 - c2 - s) - p2.entry_price * (1 + c2 + s) := by
        by_contra hneg
        push_neg at hneg
        nlinarith [mul_pos hs2 (by linarith :
          (0 : ℚ) < p2.entry_price * (1 + c2 + s) - b.close * (1 - c2 - s))]
      have hg12 : b.close * (1 - c2 - s) - p2.entry_price * (1 + c2 + s)
          ≤ b.close * (1 - c1 - s) - p1.entry_price * (1 + c1 + s) := by
        rw [hep]
        nlinarith [mul_le_mul_of_nonneg_left (by linarith : 1 - c2 - s ≤ 1 - c1 - s) hb.le,
          mul_le_mul_of_nonneg_left (by linarith : 1 + c1 + s ≤ 1 + c2 + s) hep0.le]
      have hprod : (p2.shares : ℚ)
            * (b.close * (1 - c2 - s) - p2.entry_price * (1 + c2 + s))
          ≤ (p1.shares : ℚ)
            * (b.close * (1 - c1 - s) - p1.entry_price * (1 + c1 + s)) :=
        mul_le_mul hs12 hg12 hg2 (le_trans hs2.le hs12)
      refine ⟨rfl, rfl, ?_, ?_⟩
      · show 0 ≤ st2.cash + (p2.shares : ℚ) * b.close * (1 - c2 - s)
        nlinarith [mul_nonneg (mul_nonneg hs2.le hb.le) (by linarith : (0:ℚ) ≤ 1 - c2 - s)]
      · show st2.cash + (p2.shares : ℚ) * b.close * (1 - c2 - s)
          ≤ st1.cash + (p1.shares : ℚ) * b.close * (1 - c1 - s)
        nlinarith [hV, hprod]

/-- The simulator loop preserves the dominance invariant along any run whose
bars have positive closes, whose Enter actions all fill at the higher
commission, and whose higher-commission trades all have non-negative pnl. -/
theorem btRun_dominates (c1 c2 s : ℚ) (strat : ℕ → TradeAction)
    (hc1 : 0 ≤ c1) (hc12 : c1 ≤ c2) (hs : 0 ≤ s) (hc2s : c2 + s ≤ 1) :
    ∀ (bars : List PriceBar) (st1 st2 : BtState) (i : ℕ),
      (∀ b ∈ bars, 0 < b.close) →
      EntriesFill c2 s strat st2 i bars →
      (∀ t ∈ (btRun c2 s strat st2 i bars).trades, 0 ≤ t.pnl) →
      BtDominates c1 c2 s st1 st2 →
      BtDominates c1 c2 s (btRun c1 s strat st1 i bars)
        (btRun c2 s strat st2 i bars) := by
  intro bars
  induction bars with
  | nil => intro st1 st2 i _ _ _ hdom; exact hdom
  | cons b bs ih =>
      intro st1 st2 i hb hfill hpnl hdom
      rw [btRun] at hpnl
      rw [btRun, btRun]
      refine ih (btStep c1 s st1 b (strat i)) (btStep c2 s st2 b (strat i)) (i + 1)
        (fun x hx => hb x (List.mem_cons_of_mem b hx)) hfill.2 hpnl ?_
      refine btStep_dominates c1 c2 s st1 st2 b (strat i) hc1 hc12 hs hc2s
        (hb b (List.mem_cons_self b bs)) hfill.1 ?_ hdom
      intro p2 h2p ha
      have hstep : (btStep c2 s st2 b (strat i)).trades
          = st2.trades ++ [closeTrade c2 s p2 b] := by
        rw [btStep_trades, ha, btTrade_exit_long c2 s st2 b p2 h2p]
      apply hpnl
      obtain ⟨l, hl⟩ := btRun_trades_append c2 s strat bs
        (btStep c2 s st2 b (strat i)) (i + 1)
      rw [hl, hstep]
      exact List.mem_append_left _ (List.mem_append_right _ (List.mem_singleton_self _))

/-- C6 (amended): increasing commissionRate never increases total_return,
for every run at the higher rate that executes at least one trade, ends
flat, skips no Enter for insufficient capital, and whose every completed
trade has non-negative pnl — the counterexample to the unrestricted claim
shows that an unprofitable trade combined with the integer floor on the
share fill (or a skipped entry) makes a higher commission keep more capital
out of a falling position. -/
theorem commission_monotonicity_amended (bars : List PriceBar)
    (strat : ℕ → TradeAction) (W c1 c2 s : ℚ)
    (hW : 0 < W) (hc1 : 0 ≤ c1) (hc12 : c1 ≤ c2) (hs : 0 ≤ s)
    (hc2s : c2 + s ≤ 1)
    (hb : ∀ b ∈ bars, 0 < b.close)
    (hfill : EntriesFill c2 s strat (btInit W) 0 bars)
    (hpnl : ∀ t ∈ (runBacktest bars strat W c2 s).trades, 0 ≤ t.pnl)
    (hflat : (runBacktest bars strat W c2 s).pos = Option.none)
    (htr : 1 ≤ (runBacktest bars strat W c2 s).trades.length) :
    totalReturn W (runBacktest bars strat W c2 s)
      ≤ totalReturn W (runBacktest bars strat W c1 s) := by
  have hne : bars ≠ [] := by
    intro hnil
    rw [hnil] at htr
    simp [runBacktest, btRun, btInit] at htr
  have hdom : BtDominates c1 c2 s (runBacktest bars strat W c1 s)
      (runBacktest bars strat W c2 s) :=
    btRun_dominates c1 c2 s strat hc1 hc12 hs hc2s bars (btInit W) (btInit W) 0
      hb hfill hpnl (Or.inl ⟨rfl, rfl, hW.le, le_refl W⟩)
  rcases hdom with ⟨h1n, h2n, _, hcc⟩ | ⟨p1, p2, h1p, h2p, _⟩
  · have heq : ∀ c' : ℚ, (runBacktest bars strat W c' s).pos = Option.none →
        finalEquity W (runBacktest bars strat W c' s)
          = (runBacktest bars strat W c' s).cash := by
      intro c' hp
      unfold finalEquity runBacktest
      unfold runBacktest at hp
      rw [btRun_last c' s strat bars (btInit W) 0 hne]
      show (btRun c' s strat (btInit W) 0 bars).cash
          + posValue (btRun c' s strat (btInit W) 0 bars).pos _ = _
      rw [hp]
      show _ + (0 : ℚ) = _
      rw [add_zero]
    unfold totalReturn
    rw [heq c1 h1n, heq c2 h2n]
    exact (div_le_div_iff_of_pos_right hW).mpr (by linarith)
  · rw [hflat] at h2p
    simp at h2p

/-- Witness for C6 (amended): a two-bar run (close 10 then close 20) that
enters on the first bar and exits on the second, at commissions 0 and 1%:
the higher-commission run fills its entry, ends flat, completes one
profitable trade, and its total return does not exceed the
lower-commission run's. -/
theorem commission_monotonicity_amended_witness :
    EntriesFill (1/100) 0
      (fun i => if i = 0 then TradeAction.enter else TradeAction.exitTrade)
      (btInit 100) 0 [⟨0, 10, 10, 10, 10, 0⟩, ⟨1, 20, 20, 20, 20, 0⟩]
    ∧ (∀ t ∈ (runBacktest [⟨0, 10, 10, 10, 10, 0⟩, ⟨1, 20, 20, 20, 20, 0⟩]
        (fun i => if i = 0 then TradeAction.enter else TradeAction.exitTrade)
        100 (1/100) 0).trades, 0 ≤ t.pnl)
    ∧ (runBacktest [⟨0, 10, 10, 10, 10, 0⟩, ⟨1, 20, 20, 20, 20, 0⟩]
        (fun i => if i = 0 then TradeAction.enter else TradeAction.exitTrade)
        100 (1/100) 0).pos = Option.none
    ∧ 1 ≤ (runBacktest [⟨0, 10, 10, 10, 10, 0⟩, ⟨1, 20, 20, 20, 20, 0⟩]
        (fun i => if i = 0 then TradeAction.enter else TradeAction.exitTrade)
        100 (1/100) 0).trades.length
    ∧ totalReturn 100 (runBacktest [⟨0, 10, 10, 10, 10, 0⟩, ⟨1, 20, 20, 20, 20, 0⟩]
        (fun i => if i = 0 then TradeAction.enter else TradeAction.exitTrade)
        100 (1/100) 0)
      ≤ totalReturn 100 (runBacktest [⟨0, 10, 10, 10, 10, 0⟩, ⟨1, 20, 20, 20, 20, 0⟩]
        (fun i => if i = 0 then TradeAction.enter else TradeAction.exitTrade)
        100 0 0) := by
  have e2 := enterShares_eval_2
  have e2' : enterShares ((100 : ℚ))⁻¹ 0 100 10 = 9 := by
    rw [show ((100 : ℚ))⁻¹ = 1/100 from by norm_num]
    exact e2
  have e1 := enterShares_eval_1
  have hfill : EntriesFill (1/100) 0
      (fun i => if i = 0 then TradeAction.enter else TradeAction.exitTrade)
      (btInit 100) 0 [⟨0, 10, 10, 10, 10, 0⟩, ⟨1, 20, 20, 20, 20, 0⟩] := by
    refine ⟨?_, ?_, trivial⟩
    · intro _ _
      have he : enterShares (1/100) 0 (btInit 100).cash
          (⟨0, 10, 10, 10, 10, 0⟩ : PriceBar).close = 9 := e2
      rw [he]
      norm_num
    · intro h
      simp at h
  have hpnl : ∀ t ∈ (runBacktest [⟨0, 10, 10, 10, 10, 0⟩, ⟨1, 20, 20, 20, 20, 0⟩]
      (fun i => if i = 0 then TradeAction.enter else TradeAction.exitTrade)
      100 (1/100) 0).trades, 0 ≤ t.pnl := by
    intro t ht
    simp [runBacktest, btRun, btStep, btTrade, pushEquity, btInit, posValue,
      closeTrade, e2, e2'] at ht
    rw [ht]
    norm_num
  have hflat : (runBacktest [⟨0, 10, 10, 10, 10, 0⟩, ⟨1, 20, 20, 20, 20, 0⟩]
      (fun i => if i = 0 then TradeAction.enter else TradeAction.exitTrade)
      100 (1/100) 0).pos = Option.none := by
    simp [runBacktest, btRun, btStep, btTrade, pushEquity, btInit, posValue,
      closeTrade, e2, e2']
  have htr : 1 ≤ (runBacktest [⟨0, 10, 10, 10, 10, 0⟩, ⟨1, 20, 20, 20, 20, 0⟩]
      (fun i => if i = 0 then TradeAction.enter else TradeAction.exitTrade)
      100 (1/100) 0).trades.length := by
    simp [runBacktest, btRun, btStep, btTrade, pushEquity, btInit, posValue,
      closeTrade, e2, e2']
  have hb : ∀ b ∈ [(⟨0, 10, 10, 10, 10, 0⟩ : PriceBar), ⟨1, 20, 20, 20, 20, 0⟩],
      0 < b.close := by
    intro b hbm
    simp only [List.mem_cons, List.not_mem_nil, or_false] at hbm
    rcases hbm with rfl | rfl <;> norm_num
  exact ⟨hfill, hpnl, hflat, htr,
    commission_monotonicity_amended
      [⟨0, 10, 10, 10, 10, 0⟩, ⟨1, 20, 20, 20, 20, 0⟩]
      (fun i => if i = 0 then TradeAction.enter else TradeAction.exitTrade)
      100 0 (1/100) 0 (by norm_num) (by norm_num) (by norm_num) (by norm_num)
      (by norm_num) hb hfill hpnl hflat htr⟩
